import Mathlib

/-!
Shallow embedding of `keep_to_joplin.py` (Google Keep → Joplin Markdown converter)
and proofs about it.

Modelling conventions:
* Python `str` is modelled as Lean `String`; Python `int` as `Int` (arbitrary precision
  in both languages, so no wraparound modelling is needed).
* The filesystem is modelled explicitly: the set of file names already present in the
  output directory and in its `resources` subdirectory are passed as lists, and
  `os.path.isfile` / `shutil.copy2` / `open(...).write` outcomes are oracles supplied
  by an `Env` record.  A conversion run returns the writes it performed as data.
* `datetime.datetime.utcnow()` (the fallback of `parse_timestamp`) is modelled by an
  explicit `now` parameter (seconds since the epoch) threaded into the renderer.
* Python regular expressions in `slugify` / `sanitize_note_filename` are modelled
  character by character; `\w` is modelled as ASCII alphanumeric or underscore
  (Python's default is Unicode-aware; all claims use ASCII data).
-/

set_option maxRecDepth 8192

namespace KeepToJoplin

/-- Python whitespace characters, as used by `str.strip` and the regex class `\s`. -/
def pyWS (c : Char) : Bool :=
  c == ' ' || c == '\t' || c == '\n' || c == '\r' || c == '\x0b' || c == '\x0c'

/-- Removal of leading and trailing whitespace from a character list (`str.strip()`). -/
def stripChars (l : List Char) : List Char :=
  ((l.dropWhile pyWS).reverse.dropWhile pyWS).reverse

/-- Python `str.strip()`. -/
def pyStrip (s : String) : String := ⟨stripChars s.data⟩

/-- Python `str.rstrip()` (no argument: strips trailing whitespace). -/
def pyRstrip (s : String) : String := ⟨(s.data.reverse.dropWhile pyWS).reverse⟩

/-- Decimal digits of `n`, most significant first; the first argument is fuel
    (structural recursion so that the kernel can evaluate it). -/
def digitsAux : Nat → Nat → List Char
  | 0, _ => []
  | fuel + 1, n => if n = 0 then [] else digitsAux fuel (n / 10) ++ [Nat.digitChar (n % 10)]

/-- Decimal representation of a natural number, as produced by Python `str(n)`. -/
def natRepr (n : Nat) : String := if n = 0 then "0" else ⟨digitsAux n n⟩

/-- Decimal representation of an integer, as produced by Python `str(i)`. -/
def intRepr (i : Int) : String :=
  if i < 0 then "-" ++ natRepr i.natAbs else natRepr i.natAbs

/-- Zero-padded two-digit decimal field (strftime `%m`, `%d`, `%H`, `%M`, `%S`). -/
def pad2 (n : Nat) : String := if n < 10 then "0" ++ natRepr n else natRepr n

/-- Zero-padded four-digit decimal field (strftime `%Y`). -/
def pad4 (n : Nat) : String :=
  if n < 10 then "000" ++ natRepr n
  else if n < 100 then "00" ++ natRepr n
  else if n < 1000 then "0" ++ natRepr n
  else natRepr n

/-- Proleptic-Gregorian civil date from days since 1970-01-01 (Howard Hinnant's
    `civil_from_days` algorithm, as used by CPython's pure-Python UTC conversion). -/
def civilFromDays (z0 : Int) : Int × Nat × Nat :=
  let z : Int := z0 + 719468
  let era : Int := z.fdiv 146097
  let doe : Nat := (z - era * 146097).toNat
  let yoe : Nat := (doe - doe / 1460 + doe / 36524 - doe / 146096) / 365
  let y : Int := (yoe : Int) + era * 400
  let doy : Nat := doe - (365 * yoe + yoe / 4 - yoe / 100)
  let mp : Nat := (5 * doy + 2) / 153
  let d : Nat := doy - (153 * mp + 2) / 5 + 1
  let m : Nat := if mp < 10 then mp + 3 else mp - 9
  (if m ≤ 2 then y + 1 else y, m, d)

/-- ISO-8601 UTC rendering `%Y-%m-%dT%H:%M:%SZ` of a count of seconds since the epoch. -/
def isoOfSec (s : Int) : String :=
  let days : Int := s.fdiv 86400
  let sod : Nat := (s - days * 86400).toNat
  let ymd := civilFromDays days
  pad4 ymd.1.toNat ++ "-" ++ pad2 ymd.2.1 ++ "-" ++ pad2 ymd.2.2 ++ "T" ++
    pad2 (sod / 3600) ++ ":" ++ pad2 (sod % 3600 / 60) ++ ":" ++ pad2 (sod % 60) ++ "Z"

/-- Microsecond timestamps for which `datetime.datetime.fromtimestamp(usec / 1_000_000,
    tz=datetime.timezone.utc)` succeeds: the resulting datetime must fall within year
    1..9999.  (The float division blurs this boundary by a few microseconds at the very
    extremes; no claim probes the exact boundary.) -/
def tsInRangeUsec (usec : Int) : Bool :=
  (-62135596800000000 : Int) ≤ usec && usec ≤ (253402300799999999 : Int)

/-- Microsecond timestamps whose seconds value fits the platform 64-bit `time_t`.
    `fromtimestamp` raises `ValueError` ("year ... is out of range") for timestamps
    inside this range but outside year 1..9999 — caught by the source's
    `except (ValueError, TypeError)` — whereas BEYOND this range it raises
    `OverflowError` ("timestamp out of range for platform time_t"), which that
    clause does NOT catch.  (Float rounding blurs the bound near 2^63 seconds; no
    claim probes the exact boundary.) -/
def tsFitsTimeT (usec : Int) : Bool :=
  (-(2 ^ 63) * 1000000 : Int) ≤ usec && usec ≤ ((2 ^ 63 - 1) * 1000000 : Int)

/-- Model of the string-producing behaviour of `parse_timestamp` (source lines
    103-110): a timestamp within year 1..9999 is rendered as ISO 8601 UTC; a
    timestamp outside that range but within `time_t` makes `fromtimestamp` raise
    `ValueError`, which is caught, and `datetime.datetime.utcnow()` is rendered
    instead (modelled by the explicit `now` argument, seconds since the epoch).
    Beyond `time_t` the real function raises an uncaught `OverflowError` and
    produces no string at all — see `parse_timestamp_raises`; the `""` of the third
    branch below is a placeholder outside the modelled domain, and no theorem
    evaluates the renderer there. -/
def parse_timestamp (now : Int) (usec : Int) : String :=
  if tsInRangeUsec usec then isoOfSec (usec.fdiv 1000000)
  else if tsFitsTimeT usec then isoOfSec now
  else ""

/-- Model of the regex class `\w` (ASCII approximation, see file header). -/
def wordChar (c : Char) : Bool := c.isAlphanum || c == '_'

/-- Collapses each maximal run of hyphens/whitespace to a single hyphen
    (the `re.sub(r"[-\s]+", "-", value)` step of `slugify`); the Boolean flag
    records whether the previous character was part of such a run. -/
def collapseRuns : List Char → Bool → List Char
  | [], _ => []
  | c :: rest, inRun =>
    if c == '-' || pyWS c then
      (if inRun then [] else ['-']) ++ collapseRuns rest true
    else c :: collapseRuns rest false

/-- Model of `slugify` (source lines 113-121): drop characters outside `[\w\s-]`,
    strip, lowercase, collapse `[-\s]+` runs to single hyphens. -/
def slugify (value : String) : String :=
  let kept := value.data.filter (fun c => wordChar c || pyWS c || c == '-')
  let lowered := (stripChars kept).map Char.toLower
  ⟨collapseRuns lowered false⟩

/-- Characters deleted by the regex `[\\/:*"<>|]+` in `sanitize_note_filename`. -/
def illegalChar (c : Char) : Bool :=
  c == '\\' || c == '/' || c == ':' || c == '*' || c == '"' || c == '<' || c == '>' || c == '|'

/-- Model of `sanitize_note_filename` (source lines 124-131): strip whitespace, drop
    path separators and illegal characters, strip trailing dots/spaces. -/
def sanitize_note_filename (value : String) : String :=
  let v := stripChars value.data
  if v = [] then "" else
    let cleaned := v.filter (fun c => !illegalChar c)
    ⟨(cleaned.reverse.dropWhile (fun c => c == '.' || c == ' ')).reverse⟩

/-- Index of the last occurrence of `c` in `l`, or `-1` (Python `str.rfind`). -/
def rfindChar (l : List Char) (c : Char) : Int :=
  match l.reverse.findIdx? (fun d => d == c) with
  | none => -1
  | some i => (l.length : Int) - 1 - (i : Int)

/-- Model of `os.path.splitext` (POSIX): split off the extension at the last dot that
    lies after the last slash and is preceded by some non-dot character of the basename. -/
def splitext (p : String) : String × String :=
  let l := p.data
  let sep := rfindChar l '/'
  let dot := rfindChar l '.'
  let nameSlice := (l.drop (sep + 1).toNat).take (dot - sep - 1).toNat
  if sep < dot && nameSlice.any (fun c => c != '.') then
    (⟨l.take dot.toNat⟩, ⟨l.drop dot.toNat⟩)
  else (p, "")

/-- Model of `os.path.basename` (POSIX): everything after the last slash. -/
def pyBasename (p : String) : String :=
  ⟨p.data.drop (rfindChar p.data '/' + 1).toNat⟩

/-- `COLOR_MAP` from the source (lines 83-96): Google Keep color labels to hex values. -/
def COLOR_MAP : List (String × String) :=
  [("DEFAULT", "#ffffff"), ("RED", "#ff6d3f"), ("ORANGE", "#ff9b00"),
   ("YELLOW", "#ffda00"), ("GREEN", "#95d641"), ("TEAL", "#1ce8b5"),
   ("BLUE", "#3fc3ff"), ("GRAY", "#b8c4c9"), ("CERULEAN", "#82b1ff"),
   ("PURPLE", "#b388ff"), ("PINK", "#f8bbd0"), ("BROWN", "#d7ccc8")]

/-- Dictionary lookup in `COLOR_MAP` (`color_label in COLOR_MAP` / `COLOR_MAP[...]`). -/
def colorLookup (k : String) : Option String :=
  (COLOR_MAP.find? (fun p => p.1 == k)).map (fun p => p.2)

/-- Python `sep.join(parts)`. -/
def joinWith (sep : String) : List String → String
  | [] => ""
  | [x] => x
  | x :: y :: rest => x ++ sep ++ joinWith sep (y :: rest)

/-- Prefix test on character lists (kernel-reducible `str.startswith`). -/
def isPrefixChars : List Char → List Char → Bool
  | [], _ => true
  | _ :: _, [] => false
  | a :: as, b :: bs => a == b && isPrefixChars as bs

/-- Python `s.startswith(pre)`. -/
def pyStartswith (s pre : String) : Bool := isPrefixChars pre.data s.data

/-- Python `"\n".join(lines)`. -/
def joinLines : List String → String
  | [] => ""
  | [x] => x
  | x :: y :: rest => x ++ "\n" ++ joinLines (y :: rest)

/-! ### Collision-avoiding name search

Both namers run the same loop: try candidate 0; while the current candidate is
blocked (already used / already on disk), move to the next candidate.  The Python
loop has no structural bound, so the model carries fuel; `blocked.length + 1`
steps always suffice (proved below for injective candidate families). -/

/-- The collision loop: starting from candidate index `i`, return the first
    candidate not in `blocked` (or, with exhausted fuel, the current candidate —
    unreachable when the fuel is at least the number of blocked names). -/
def firstFreshAux (cand : Nat → String) (blocked : List String) : Nat → Nat → String
  | 0, i => cand i
  | fuel + 1, i => if cand i ∈ blocked then firstFreshAux cand blocked fuel (i + 1) else cand i

/-- First candidate name that does not collide with `blocked`. -/
def firstFresh (cand : Nat → String) (blocked : List String) : String :=
  firstFreshAux cand blocked (blocked.length + 1) 0

/-- Candidate filenames tried by `get_safe_filename`: `base.md`, then
    `base (2).md`, `base (3).md`, ... (the counter starts at 1 and is incremented
    before its first use, so the first disambiguator is 2). -/
def noteCand (base : String) : Nat → String
  | 0 => base ++ ".md"
  | k + 1 => base ++ " (" ++ natRepr (k + 2) ++ ").md"

/-- Candidate filenames tried by `get_unique_attachment_name`: `base ++ ext`, then
    `base-2 ++ ext`, `base-3 ++ ext`, ... -/
def attCand (base ext : String) : Nat → String
  | 0 => base ++ ext
  | k + 1 => base ++ "-" ++ natRepr (k + 2) ++ ext

/-- The sanitized base name used by `get_safe_filename` (source lines 138-140),
    with the `note-<created_usec>` fallback for empty sanitized titles. -/
def noteBaseOf (title : String) (created_usec : Int) : String :=
  let base := sanitize_note_filename title
  if base = "" then "note-" ++ intRepr created_usec else base

/-- Model of `get_safe_filename` (source lines 134-147).  `existing` is the list of
    file names present in the output directory (pre-existing files plus the files
    written so far in this run); it models the `os.path.exists` checks. -/
def get_safe_filename (title : String) (existing : List String) (created_usec : Int) : String :=
  firstFresh (noteCand (noteBaseOf title created_usec)) existing

/-- The slugified base used by `get_unique_attachment_name` (source line 155/170). -/
def attBaseOf (original : String) : String :=
  let s := slugify (splitext original).1
  if s = "" then "attachment" else s

/-- The preserved extension used by `get_unique_attachment_name`. -/
def attExtOf (original : String) : String := (splitext original).2

/-- Model of `get_unique_attachment_name` (source lines 150-162, duplicated verbatim
    at lines 165-177; the second definition shadows the first with an identical body).
    `targetFiles` lists the file names present in the target directory (models
    `os.path.exists`); `used_names` is the in-run reservation set.  Returns the chosen
    name together with the updated reservation set (`used_names.add(filename)` happens
    before returning). -/
def get_unique_attachment_name (original : String) (targetFiles : List String)
    (used_names : List String) : String × List String :=
  let filename := firstFresh (attCand (attBaseOf original) (attExtOf original))
    (used_names ++ targetFiles)
  (filename, filename :: used_names)

/-! ### JSON values and the note parser -/

/-- JSON values as produced by `json.load`.  JSON floats are not modelled (no claim
    involves them); object fields are an association list (first match wins; Takeout
    files do not repeat keys). -/
inductive JValue where
  | null
  | bool (b : Bool)
  | int (n : Int)
  | str (s : String)
  | arr (elems : List JValue)
  | obj (fields : List (String × JValue))

mutual

/-- Python value equality (`==` / `!=`) on decoded JSON values. -/
def jbeq : JValue → JValue → Bool
  | .null, .null => true
  | .bool a, .bool b => a == b
  | .int a, .int b => a == b
  | .str a, .str b => a == b
  | .arr xs, .arr ys => jbeqList xs ys
  | .obj xs, .obj ys => jbeqFields xs ys
  | _, _ => false

/-- Elementwise `jbeq` on JSON arrays. -/
def jbeqList : List JValue → List JValue → Bool
  | [], [] => true
  | x :: xs, y :: ys => jbeq x y && jbeqList xs ys
  | _, _ => false

/-- Elementwise `jbeq` on JSON object fields. -/
def jbeqFields : List (String × JValue) → List (String × JValue) → Bool
  | [], [] => true
  | (k1, v1) :: xs, (k2, v2) :: ys => k1 == k2 && jbeq v1 v2 && jbeqFields xs ys
  | _, _ => false

end

/-- Python `dict.get(k)` on a decoded JSON object. -/
def jGet (kvs : List (String × JValue)) (k : String) : Option JValue :=
  (kvs.find? (fun p => p.1 == k)).map (fun p => p.2)

/-- Python truthiness of a decoded JSON value. -/
def jTruthy : JValue → Bool
  | .null => false
  | .bool b => b
  | .int n => n != 0
  | .str s => s != ""
  | .arr xs => !xs.isEmpty
  | .obj kvs => !kvs.isEmpty

/-- Decimal digit run to a number: `some` iff nonempty and all digits. -/
def digitsToNat (l : List Char) : Option Nat :=
  if l ≠ [] ∧ l.all Char.isDigit then
    some (l.foldl (fun a c => a * 10 + (c.toNat - 48)) 0)
  else none

/-- Python `int(s)` on a string: strip whitespace, optional sign, decimal digits;
    `none` models the `ValueError` raised otherwise.  (Underscore digit grouping,
    accepted by Python, is not modelled; no claim uses it.) -/
def pyIntOfStr (s : String) : Option Int :=
  match stripChars s.data with
  | '-' :: ds => (digitsToNat ds).map (fun n => -(n : Int))
  | '+' :: ds => (digitsToNat ds).map (fun n => (n : Int))
  | ds => (digitsToNat ds).map (fun n => (n : Int))

/-- Python `int(v)` on a decoded JSON value; `none` models the `ValueError` /
    `TypeError` raised for non-numeric values. -/
def pyIntOfJson : JValue → Option Int
  | .int n => some n
  | .bool b => some (if b then 1 else 0)
  | .str s => pyIntOfStr s
  | _ => none

/-- Model of `int(data.get(k, 0) or 0)` (source lines 198-199): absent fields and
    falsy values (null, 0, "", [], {}) yield 0; a truthy non-numeric value makes
    `int(...)` raise, modelled by `none`. -/
def tsField (kvs : List (String × JValue)) (k : String) : Option Int :=
  let v := (jGet kvs k).getD (.int 0)
  pyIntOfJson (if jTruthy v then v else .int 0)

/-- Tag-removal scanner for `strip_tags`: characters between `<` and `>` are dropped. -/
def stripTagsAux : List Char → Bool → List Char
  | [], _ => []
  | c :: rest, true => if c == '>' then stripTagsAux rest false else stripTagsAux rest true
  | c :: rest, false =>
    if c == '<' then stripTagsAux rest true else c :: stripTagsAux rest false

/-- Character-reference decoding for the text data (`convert_charrefs=True`).
    The model decodes the five standard named references; other references are kept
    verbatim (no claim exercises them). -/
def decodeEntities : List Char → List Char
  | [] => []
  | '&' :: 'a' :: 'm' :: 'p' :: ';' :: rest => '&' :: decodeEntities rest
  | '&' :: 'l' :: 't' :: ';' :: rest => '<' :: decodeEntities rest
  | '&' :: 'g' :: 't' :: ';' :: rest => '>' :: decodeEntities rest
  | '&' :: 'q' :: 'u' :: 'o' :: 't' :: ';' :: rest => '"' :: decodeEntities rest
  | '&' :: 'a' :: 'p' :: 'o' :: 's' :: ';' :: rest => '\'' :: decodeEntities rest
  | c :: rest => c :: decodeEntities rest

/-- Model of `strip_tags` (source lines 52-58, `MLStripper`): removes markup tags and
    decodes character references, keeping text data in document order. -/
def strip_tags (html_content : String) : String :=
  if html_content = "" then ""
  else ⟨decodeEntities (stripTagsAux html_content.data false)⟩

/-- The normalized note record (source `Note` dataclass, lines 64-79).
    `attachments` and `annotations` are kept as loosely-structured JSON values,
    exactly as in the source. -/
structure Note where
  title : String
  content : String := ""
  items : List (String × Bool) := []
  created_usec : Int := 0
  updated_usec : Int := 0
  is_trashed : Bool := false
  is_pinned : Bool := false
  is_archived : Bool := false
  labels : List String := []
  color : String := "DEFAULT"
  attachments : List JValue := []
  annotations : List JValue := []

/-- Uncaught Python exceptions modelled by the embedding. -/
inductive PyErr where
  | valueError
  | overflowError
deriving DecidableEq

/-- String field extraction: the value when it is a JSON string, else the default.
    (Non-string payloads in these fields flow into string operations and crash
    later in Python; those corners are outside every claim and are not modelled.) -/
def jStrD (v : Option JValue) (d : String) : String :=
  match v with
  | some (.str s) => s
  | _ => d

/-- One `listContent` entry (source lines 228-234): prefer the plain `text` field;
    when that is falsy and `textHtml` is present, strip tags from it; `isChecked`
    defaults to false.  Entries that are not JSON objects raise in Python and are
    not modelled (skipped). -/
def parseItem (v : JValue) : Option (String × Bool) :=
  match v with
  | .obj kv =>
    let text := jStrD (jGet kv "text") ""
    let text :=
      if text = "" ∧ (jGet kv "textHtml").isSome then strip_tags (jStrD (jGet kv "textHtml") "")
      else text
    some (text, jTruthy ((jGet kv "isChecked").getD (.bool false)))
  | _ => none

/-- Label extraction (source lines 208-212): only list entries carrying a `name`
    key contribute; other entries are skipped.  (Non-string `name` values crash at
    the `", ".join` in Python and are not modelled.) -/
def parseLabels (v : Option JValue) : List String :=
  match v with
  | some (.arr xs) =>
    xs.foldr (fun x acc =>
      match x with
      | .obj kv =>
        match jGet kv "name" with
        | some (.str n) => n :: acc
        | _ => acc
      | _ => acc) []
  | _ => []

/-- Body-text resolution (source lines 218-224): if `textContent` is present use it;
    else take `data.get("textContentHtml") or data.get("textHtml")` (first truthy)
    and strip tags when the result is truthy. -/
def parseContent (kvs : List (String × JValue)) : String :=
  match jGet kvs "textContent" with
  | some v => jStrD (some v) ""
  | none =>
    let hv := match jGet kvs "textContentHtml" with
      | some v => if jTruthy v then some v else jGet kvs "textHtml"
      | none => jGet kvs "textHtml"
    match hv with
    | some v => if jTruthy v then strip_tags (jStrD (some v) "") else ""
    | none => ""

/-- A JSON-array field passed through loosely (source `data.get("attachments", [])`). -/
def jArrD (v : Option JValue) : List JValue :=
  match v with
  | some (.arr xs) => xs
  | _ => []

/-- Model of `parse_note_json` (source lines 180-254).  The argument is the result of
    decoding the file: `none` models a `json.JSONDecodeError`/`UnicodeDecodeError`
    (caught, → `None`); a non-object payload also yields `None`; a truthy non-numeric
    timestamp field makes the uncaught `int(...)` conversion raise `ValueError`,
    modelled by `.error`. -/
def parse_note_json (raw : Option JValue) : Except PyErr (Option Note) :=
  match raw with
  | none => .ok none
  | some (.obj kvs) =>
    match tsField kvs "createdTimestampUsec" with
    | none => .error .valueError
    | some created =>
      match tsField kvs "userEditedTimestampUsec" with
      | none => .error .valueError
      | some updated =>
        .ok (some {
          title := jStrD (jGet kvs "title") ""
          content := parseContent kvs
          items := (jArrD (jGet kvs "listContent")).filterMap parseItem
          created_usec := created
          updated_usec := updated
          is_trashed := jTruthy ((jGet kvs "isTrashed").getD (.bool false))
          is_pinned := jTruthy ((jGet kvs "isPinned").getD (.bool false))
          is_archived := jTruthy ((jGet kvs "isArchived").getD (.bool false))
          labels := parseLabels (jGet kvs "labels")
          color := jStrD (jGet kvs "color") "DEFAULT"
          attachments := jArrD (jGet kvs "attachments")
          annotations := jArrD (jGet kvs "annotations") })
  | some _ => .ok none

/-! ### Markdown renderer (`note_to_markdown`, source lines 257-351) -/

/-- `(note.color or "DEFAULT").upper()` (ASCII uppercase; palette keys are ASCII). -/
def colorLabel (note : Note) : String :=
  ⟨(if note.color = "" then "DEFAULT" else note.color).data.map Char.toUpper⟩

/-- `has_colored_background` (source lines 271-272). -/
def hasColoredBackground (note : Note) : Bool :=
  colorLabel note != "DEFAULT" && (colorLookup (colorLabel note)).isSome

/-- One rendered checkbox line, `- [x] text` / `- [ ] text`. -/
def checkboxLine (item : String × Bool) : String :=
  "- [" ++ (if item.2 then "x" else " ") ++ "] " ++ item.1

/-- The checklist loop (source lines 274-282), appending one line per item to the
    accumulated body lines.  On a colored background the source builds the line via
    a separate f-string (`checkbox_html`) whose text is character-for-character the
    same as the plain branch. -/
def itemLinesLoop (hasColored : Bool) : List (String × Bool) → List String → List String
  | [], acc => acc
  | it :: rest, acc =>
    let line := if hasColored then "- [" ++ (if it.2 then "x" else " ") ++ "] " ++ it.1
      else checkboxLine it
    itemLinesLoop hasColored rest (acc ++ [line])

/-- `if body_lines and body_lines[-1] == "": body_lines.pop()` (source lines 285-286). -/
def popTrailingEmpty (l : List String) : List String :=
  match l.getLast? with
  | some "" => l.dropLast
  | _ => l

/-- `while body_lines and body_lines[-1] == "": body_lines.pop()` (source lines 331-332). -/
def dropTrailingEmpty (l : List String) : List String :=
  (l.reverse.dropWhile (fun s => s == "")).reverse

/-- One resolved attachment reference: `(original_display_name, output_relative_path,
    mime_type)` (source `AttachmentRef`). -/
def AttachmentRef : Type := String × String × String

/-- One rendered attachment line (source lines 297-301): image MIME types render as
    an embedded image, others as a plain link. -/
def attachmentLine (ref : String × String × String) : String :=
  if pyStartswith ref.2.2 "image/" then "![" ++ ref.1 ++ "](" ++ ref.2.1 ++ ")"
  else "[" ++ ref.1 ++ "](" ++ ref.2.1 ++ ")"

/-- Python `str(v)` for scalar JSON values, as used by f-string interpolation in the
    links section.  (The `repr` of containers is not modelled; no claim uses it.) -/
def pyStr : JValue → String
  | .null => "None"
  | .bool true => "True"
  | .bool false => "False"
  | .int n => intRepr n
  | .str s => s
  | .arr _ => ""
  | .obj _ => ""

/-- The links loop (source lines 303-314): one bullet per annotation entry with a
    truthy `url`; bullet text is the first truthy of title/description/url; a truthy
    description different from the link text is appended after the source's
    (mojibake) em-dash separator.  Entries that are not JSON objects crash in Python
    and are not modelled (skipped). -/
def linkLines (anns : List JValue) : List String :=
  anns.foldr (fun ann acc =>
    match ann with
    | .obj kv =>
      match jGet kv "url" with
      | some url =>
        if jTruthy url then
          let title := jGet kv "title"
          let desc := jGet kv "description"
          let linkText : JValue :=
            match title with
            | some t => if jTruthy t then t else
                (match desc with
                 | some d => if jTruthy d then d else url
                 | none => url)
            | none =>
              match desc with
              | some d => if jTruthy d then d else url
              | none => url
          let formatted := "- [" ++ pyStr linkText ++ "](" ++ pyStr url ++ ")"
          let formatted :=
            match desc with
            | some d => if jTruthy d && !jbeq d linkText then formatted ++ " â€” " ++ pyStr d
                else formatted
            | none => formatted
          formatted :: acc
        else acc
      | none => acc
    | _ => acc) []

/-- The timestamp source selected for the footer: `note.updated_usec or note.created_usec`. -/
def tsSource (note : Note) : Int :=
  if note.updated_usec ≠ 0 then note.updated_usec else note.created_usec

/-- The footer line (source lines 321-328). -/
def footerLine (now : Int) (note : Note) : String :=
  "<small style=\"color: #555;\">" ++
    (if note.updated_usec ≠ 0 then "Updated" else "Created") ++ ": " ++
    parse_timestamp now (tsSource note) ++ "</small>"

/-- The `body_lines` list right before the final assembly (source lines 263-332):
    content, checklist, labels line, attachments section, links section, with the
    source's two trailing-blank-line removals. -/
def bodyCore (note : Note) (refs : List (String × String × String)) : List String :=
  let b : List String := if note.content ≠ "" then [pyRstrip note.content, ""] else []
  let b := if note.items ≠ [] then itemLinesLoop (hasColoredBackground note) note.items b ++ [""]
    else b
  let b := popTrailingEmpty b
  let b := if note.labels ≠ [] then
      (if b ≠ [] then b ++ [""] else b) ++ ["Labels: " ++ joinWith ", " note.labels]
    else b
  let b := if refs ≠ [] then
      (if b ≠ [] then b ++ [""] else b) ++ ["Attachments:"] ++ refs.map attachmentLine
    else b
  let b := if !note.annotations.isEmpty then
      let ll := linkLines note.annotations
      if ll ≠ [] then (if b ≠ [] then b ++ [""] else b) ++ ["Links:"] ++ ll else b
    else b
  dropTrailingEmpty b

/-- The opening line of the colored wrapper (source lines 336-340). -/
def divOpenLine (hex : String) : String :=
  "<div class=\"keep-note\" style=\"background-color: " ++ hex ++
    "; color: black; padding: 16px; border-radius: 8px; margin-bottom: 16px;\">"

/-- Model of `note_to_markdown` (source lines 257-351).  `now` models the wall clock
    read by the out-of-range timestamp fallback. -/
def note_to_markdown (now : Int) (note : Note)
    (attachment_refs : List (String × String × String)) : String :=
  let b := bodyCore note attachment_refs
  let f := footerLine now note
  let lines :=
    if hasColoredBackground note then
      [divOpenLine ((colorLookup (colorLabel note)).getD ""), ""] ++ b ++ [f, "</div>"]
    else b ++ [f]
  pyStrip (joinLines lines) ++ "\n"

/-! ### Conversion orchestrator (`convert_keep_notes`, source lines 354-491) -/

/-- Aggregate statistics (source `stats` dict, lines 380-387). -/
structure Stats where
  processed : Nat := 0
  exported : Nat := 0
  skipped_trashed : Nat := 0
  skipped_archived : Nat := 0
  skipped_invalid : Nat := 0
  errors : Nat := 0
deriving DecidableEq

/-- Conversion options (keyword arguments of `convert_keep_notes`). -/
structure Opts where
  dry_run : Bool := false
  include_trashed : Bool := false
  include_archived : Bool := false

/-- The filesystem/OS environment of one run: names pre-existing in the output
    directory and in its `resources` subdirectory, and oracles for
    `os.path.isfile(dirname(filepath)/rel)`, for the success of `shutil.copy2`,
    and for the success of writing a note file (both keyed by the source record). -/
structure Env where
  preOut : List String := []
  preRes : List String := []
  isfile : String → String → Bool := fun _ _ => false
  copyOk : String → String → Bool := fun _ _ => true
  writeOk : String → Bool := fun _ => true

/-- The sort key of the export queue (source lines 420-425):
    `(1 if pinned else 0, int(updated_usec or 0))`, compared lexicographically. -/
def sortKey (note : Note) : Nat × Int :=
  (if note.is_pinned then 1 else 0, note.updated_usec)

/-- The (total, transitive) comparison underlying Python's ascending stable sort of
    the queue. -/
def keyLe (a b : Note × String) : Prop :=
  (sortKey a.1).1 < (sortKey b.1).1 ∨
    ((sortKey a.1).1 = (sortKey b.1).1 ∧ (sortKey a.1).2 ≤ (sortKey b.1).2)

instance : DecidableRel keyLe := fun a b => by
  unfold keyLe; infer_instance

instance : IsTotal (Note × String) keyLe where
  total a b := by unfold keyLe; omega

instance : IsTrans (Note × String) keyLe where
  trans a b c hab hbc := by unfold keyLe at *; omega

/-- Model of `notes_to_export.sort(key=...)`: Python's `list.sort` is an ascending
    stable sort, which is uniquely characterized (for a total transitive comparison)
    as a sorted, stable permutation; insertion sort realizes it. -/
def sortNotes (l : List (Note × String)) : List (Note × String) :=
  List.insertionSort keyLe l

/-- Mutable state of the export loop (source lines 427-489).  `allocNotes` and
    `allocAtts` are observer fields recording, in order, the names the two namers
    allocated (visible in the source through paths and log messages); they have no
    effect on control flow. -/
structure ExpState where
  stats : Stats
  used : List String := []
  writesOut : List (String × String) := []
  writesRes : List String := []
  allocNotes : List String := []
  allocAtts : List String := []
deriving DecidableEq

/-- Processing of one attachment descriptor (source lines 435-468).  A falsy or
    absent `filePath` is skipped; a missing source file is logged and skipped; then a
    destination name is allocated (check-and-reserve); in a dry run the copy is
    skipped, otherwise a failed copy increments `errors` and drops the reference. -/
def processAtt (env : Env) (opts : Opts) (filepath : String) (att : JValue)
    (acc : List (String × String × String) × ExpState) :
    List (String × String × String) × ExpState :=
  let refs := acc.1
  let st := acc.2
  match att with
  | .obj kv =>
    match jGet kv "filePath" with
    | some (.str rel) =>
      if rel = "" then (refs, st)
      else if ¬ env.isfile filepath rel then (refs, st)
      else
        let r := get_unique_attachment_name rel (env.preRes ++ st.writesRes) st.used
        let rel_path := "resources/" ++ r.1
        let st := { st with used := r.2, allocAtts := st.allocAtts ++ [r.1] }
        let mt := jStrD (jGet kv "mimetype") ""
        if opts.dry_run then (refs ++ [(pyBasename rel, rel_path, mt)], st)
        else if env.copyOk filepath rel then
          (refs ++ [(pyBasename rel, rel_path, mt)], { st with writesRes := st.writesRes ++ [r.1] })
        else (refs, { st with stats := { st.stats with errors := st.stats.errors + 1 } })
    | _ => (refs, st)
  | _ => (refs, st)

/-- Processing of one queued note (source lines 431-489): resolve attachments,
    render, allocate the output filename, and (unless in a dry run) write it;
    a failed write increments `errors` and skips the note. -/
def processNote (env : Env) (opts : Opts) (now : Int) (st : ExpState)
    (pair : Note × String) : ExpState :=
  let note := pair.1
  let filepath := pair.2
  let ra := note.attachments.foldl (fun acc att => processAtt env opts filepath att acc) ([], st)
  let refs := ra.1
  let st := ra.2
  let md := note_to_markdown now note refs
  let existing := env.preOut ++ st.writesOut.map (fun w => w.1)
  let safe := get_safe_filename note.title existing note.created_usec
  let st := { st with allocNotes := st.allocNotes ++ [safe] }
  if opts.dry_run then
    { st with stats := { st.stats with exported := st.stats.exported + 1 } }
  else if env.writeOk filepath then
    { st with writesOut := st.writesOut ++ [(safe, md)],
              stats := { st.stats with exported := st.stats.exported + 1 } }
  else { st with stats := { st.stats with errors := st.stats.errors + 1 } }

/-- The discovery/parse/filter phase (source lines 389-418) over the `.json` files
    found by the walk, in discovery order.  A parse `ValueError` propagates (nothing
    in the source catches it). -/
def collectNotes (opts : Opts) : List (String × Option JValue) → Stats →
    List (Note × String) → Except PyErr (Stats × List (Note × String))
  | [], stats, queue => .ok (stats, queue)
  | (filepath, raw) :: rest, stats, queue =>
    let stats := { stats with processed := stats.processed + 1 }
    match parse_note_json raw with
    | .error e => .error e
    | .ok none =>
      collectNotes opts rest { stats with skipped_invalid := stats.skipped_invalid + 1 } queue
    | .ok (some note) =>
      if note.is_trashed ∧ ¬ opts.include_trashed then
        collectNotes opts rest { stats with skipped_trashed := stats.skipped_trashed + 1 } queue
      else if note.is_archived ∧ ¬ opts.include_archived then
        collectNotes opts rest { stats with skipped_archived := stats.skipped_archived + 1 } queue
      else collectNotes opts rest stats (queue ++ [(note, filepath)])

/-- Decidable equality for `Except` results (used to evaluate run outcomes). -/
instance {e a : Type} [DecidableEq e] [DecidableEq a] : DecidableEq (Except e a) := fun x y =>
  match x, y with
  | .ok u, .ok v =>
    if h : u = v then isTrue (by rw [h]) else isFalse (fun hc => h (Except.ok.inj hc))
  | .error u, .error v =>
    if h : u = v then isTrue (by rw [h]) else isFalse (fun hc => h (Except.error.inj hc))
  | .ok _, .error _ => isFalse (fun hc => Except.noConfusion hc)
  | .error _, .ok _ => isFalse (fun hc => Except.noConfusion hc)

/-- The observable outcome of one conversion run. -/
structure RunOut where
  stats : Stats
  writesOut : List (String × String)
  writesRes : List String
  allocNotes : List String
  allocAtts : List String
deriving DecidableEq

/-- Model of `convert_keep_notes` (source lines 354-491): parse and filter every
    discovered record, sort the queue (pin flag, then updated time; stable), then
    export each note.  `files` is the list of `.json` files in discovery order,
    each with its decoded payload (`none` = undecodable). -/
def convert_keep_notes (env : Env) (opts : Opts) (now : Int)
    (files : List (String × Option JValue)) : Except PyErr RunOut :=
  match collectNotes opts files {} [] with
  | .error e => .error e
  | .ok sq =>
    let final := (sortNotes sq.2).foldl (processNote env opts now) { stats := sq.1 }
    .ok { stats := final.stats, writesOut := final.writesOut, writesRes := final.writesRes,
          allocNotes := final.allocNotes, allocAtts := final.allocAtts }

/-! ### Concrete inputs used by counterexamples and witnesses -/

/-- An environment with an empty output directory and no failing operation
    (sources of attachments are absent unless stated otherwise). -/
def envAllOk : Env := {}

/-- The spec's own sorting example: `(pinned, updated)` = (false,100), (true,50),
    (true,200), in discovery order. -/
def c1files : List (String × Option JValue) :=
  [("a.json", some (.obj [("title", .str "a"), ("userEditedTimestampUsec", .int 100)])),
   ("b.json", some (.obj [("title", .str "b"), ("userEditedTimestampUsec", .int 50),
      ("isPinned", .bool true)])),
   ("c.json", some (.obj [("title", .str "c"), ("userEditedTimestampUsec", .int 200),
      ("isPinned", .bool true)]))]

/-- Two notes whose titles sanitize to the same base name. -/
def c2files : List (String × Option JValue) :=
  [("1.json", some (.obj [("title", .str "t")])),
   ("2.json", some (.obj [("title", .str "t"), ("userEditedTimestampUsec", .int 5)]))]

/-- A single well-formed record (dry-run versus real-run witness input). -/
def c2wfiles : List (String × Option JValue) :=
  [("n.json", some (.obj [("title", .str "w")]))]

/-- A record whose `createdTimestampUsec` is a truthy non-numeric value. -/
def c3failRecord : JValue := .obj [("createdTimestampUsec", .str "abc")]

/-- A record with one attachment descriptor. -/
def c8files : List (String × Option JValue) :=
  [("n.json", some (.obj [("title", .str "t"),
     ("attachments", .arr [.obj [("filePath", .str "img.png"),
       ("mimetype", .str "image/png")]])]))]

/-- Environment in which the attachment's source file exists but every copy fails. -/
def envCopyFail : Env := { isfile := fun _ _ => true, copyOk := fun _ _ => false }

/-- Environment in which every attachment source file exists and all operations succeed. -/
def envAttOk : Env := { isfile := fun _ _ => true }

/-- The outcome of converting `c8files` under `envAttOk`. -/
def c5out : RunOut :=
  { stats := { processed := 1, exported := 1 },
    writesOut := [("t.md",
      "Attachments:\n![img.png](resources/img.png)\n" ++
      "<small style=\"color: #555;\">Created: 1970-01-01T00:00:00Z</small>\n")],
    writesRes := ["img.png"],
    allocNotes := ["t.md"],
    allocAtts := ["img.png"] }

/-- The outcome of a dry run on `c2wfiles`. -/
def c2dryOut : RunOut :=
  { stats := { processed := 1, exported := 1 }, writesOut := [], writesRes := [],
    allocNotes := ["w.md"], allocAtts := [] }

/-- The outcome of a real run on `c2wfiles`. -/
def c2realOut : RunOut :=
  { stats := { processed := 1, exported := 1 },
    writesOut := [("w.md",
      "<small style=\"color: #555;\">Created: 1970-01-01T00:00:00Z</small>\n")],
    writesRes := [], allocNotes := ["w.md"], allocAtts := [] }

/-- A note with a recognized non-default color. -/
def redNote : Note := { title := "r", content := "hello", color := "RED" }

/-- A note with the default color. -/
def defaultColorNote : Note := { title := "d", content := "hello" }

/-- A note with an unrecognized color. -/
def unknownColorNote : Note := { title := "u", content := "hello", color := "MAUVE" }

/-- The spec's checklist round-trip example. -/
def milkNote : Note := { title := "m", items := [("buy milk", false), ("pay rent", true)] }

/-- Three queued notes with the same (colliding) title. -/
def c4queue : List (Note × String) :=
  [({ title := "t" }, "1.json"), ({ title := "t" }, "2.json"), ({ title := "t" }, "3.json")]

/-- The initial state of the export loop. -/
def initState (s : Stats) : ExpState := { stats := s }

/-- The note filename a dry run allocates: nothing is written in a dry run, so every
    allocation sees only the pre-existing files. -/
def dryNoteName (env : Env) (p : Note × String) : String :=
  get_safe_filename p.1.title env.preOut p.1.created_usec

/-- The invariant relating the dry-run and real-run export states (claim C2):
    equal statistics, equal reservation sets, equal attachment allocations, the dry
    run writes nothing, and every name the real run copied is reserved. -/
def DryRealInv (sd sr : ExpState) : Prop :=
  sd.stats = sr.stats ∧ sd.used = sr.used ∧ sd.allocAtts = sr.allocAtts ∧
    sd.writesOut = [] ∧ sd.writesRes = [] ∧ ∀ x ∈ sr.writesRes, x ∈ sr.used

/-- The run invariant of the attachment namer (claim C5): allocated names are
    pairwise distinct and all reserved. -/
def AttAllocInv (st : ExpState) : Prop :=
  st.allocAtts.Pairwise (fun a b => a ≠ b) ∧ ∀ x ∈ st.allocAtts, x ∈ st.used

/-! ## Lemmas: decimal representations and candidate-name injectivity -/

lemma string_data_inj {a b : String} (h : a.data = b.data) : a = b := by
  cases a; cases b; exact congrArg String.mk h

lemma digitsAux_eq : ∀ (fuel n : Nat), n ≤ fuel →
    digitsAux fuel n = ((Nat.digits 10 n).reverse.map Nat.digitChar)
  | 0, n, h => by
    have : n = 0 := by omega
    subst this; simp [digitsAux]
  | fuel + 1, n, h => by
    by_cases hn : n = 0
    · subst hn; simp [digitsAux]
    · have hd : n / 10 ≤ fuel := by
        have := Nat.div_lt_self (Nat.pos_of_ne_zero hn) (by norm_num : 1 < 10)
        omega
      rw [show digitsAux (fuel + 1) n
            = if n = 0 then [] else digitsAux fuel (n / 10) ++ [Nat.digitChar (n % 10)] from rfl,
        if_neg hn, digitsAux_eq fuel (n / 10) hd,
        Nat.digits_def' (by norm_num : (1 : Nat) < 10) (Nat.pos_of_ne_zero hn)]
      simp

lemma digitChar_inj_lt :
    ∀ a, a < 10 → ∀ b, b < 10 → Nat.digitChar a = Nat.digitChar b → a = b := by decide

lemma map_digitChar_inj : ∀ (l₁ l₂ : List Nat), (∀ d ∈ l₁, d < 10) → (∀ d ∈ l₂, d < 10) →
    l₁.map Nat.digitChar = l₂.map Nat.digitChar → l₁ = l₂
  | [], [], _, _, _ => rfl
  | [], _ :: _, _, _, h => by simp at h
  | _ :: _, [], _, _, h => by simp at h
  | a :: l₁, b :: l₂, h1, h2, h => by
    simp only [List.map_cons, List.cons.injEq] at h
    have hab := digitChar_inj_lt a (h1 a (by simp)) b (h2 b (by simp)) h.1
    subst hab
    rw [map_digitChar_inj l₁ l₂ (fun d hd => h1 d (by simp [hd]))
      (fun d hd => h2 d (by simp [hd])) h.2]

lemma natRepr_data (n : Nat) (hn : n ≠ 0) :
    (natRepr n).data = (Nat.digits 10 n).reverse.map Nat.digitChar := by
  show (if n = 0 then "0" else ⟨digitsAux n n⟩ : String).data = _
  rw [if_neg hn]
  exact digitsAux_eq n n le_rfl

lemma digits_reverse_lt (n : Nat) : ∀ d ∈ (Nat.digits 10 n).reverse, d < 10 := by
  intro d hd
  rw [List.mem_reverse] at hd
  exact Nat.digits_lt_base (by norm_num) hd

lemma natRepr_inj {n m : Nat} (h : natRepr n = natRepr m) : n = m := by
  have key : ∀ a b : Nat, a = 0 → b ≠ 0 → natRepr a ≠ natRepr b := by
    intro a b ha hb he
    subst ha
    have hd := congrArg String.data he
    rw [natRepr_data b hb] at hd
    have h0 : (natRepr 0).data = [Nat.digitChar 0] := rfl
    rw [h0] at hd
    have : ([0] : List Nat) = (Nat.digits 10 b).reverse := by
      apply map_digitChar_inj _ _ (by simp) (digits_reverse_lt b)
      simpa using hd
    have hdig : Nat.digits 10 b = [0] := by
      rw [← List.reverse_reverse (Nat.digits 10 b), ← this]
      rfl
    have := Nat.ofDigits_digits 10 b
    rw [hdig] at this
    simp [Nat.ofDigits] at this
    exact hb this.symm
  by_cases hn : n = 0 <;> by_cases hm : m = 0
  · omega
  · exact absurd h (key n m hn hm)
  · exact absurd h.symm (key m n hm hn)
  · have hd := congrArg String.data h
    rw [natRepr_data n hn, natRepr_data m hm] at hd
    have hrev := map_digitChar_inj _ _ (digits_reverse_lt n) (digits_reverse_lt m) hd
    have := congrArg List.reverse hrev
    simp only [List.reverse_reverse] at this
    exact Nat.digits.injective 10 this

lemma noteCand_inj (base : String) : Function.Injective (noteCand base) := by
  have e1 : (".md" : String).data = ['.', 'm', 'd'] := rfl
  have e2 : (" (" : String).data = [' ', '('] := rfl
  have e3 : (").md" : String).data = [')', '.', 'm', 'd'] := rfl
  have main : ∀ k j : Nat, noteCand base (k + 1) = noteCand base (j + 1) → k = j := by
    intro k j h
    have hd := congrArg String.data h
    simp only [noteCand, String.data_append, List.append_assoc] at hd
    have h2 := (List.append_inj hd rfl).2
    have h3 := (List.append_inj h2 rfl).2
    have hlen : (natRepr (k + 2)).data.length = (natRepr (j + 2)).data.length := by
      have := congrArg List.length h3
      simp only [List.length_append] at this
      omega
    have h4 := (List.append_inj h3 hlen).1
    have := natRepr_inj (string_data_inj h4)
    omega
  have zs : ∀ k : Nat, noteCand base 0 ≠ noteCand base (k + 1) := by
    intro k h
    have hd := congrArg String.data h
    simp only [noteCand, String.data_append, List.append_assoc] at hd
    have h2 := (List.append_inj hd rfl).2
    have := congrArg List.length h2
    simp at this
  intro i j h
  match i, j with
  | 0, 0 => rfl
  | 0, k + 1 => exact absurd h (zs k)
  | k + 1, 0 => exact absurd h.symm (zs k)
  | k + 1, j + 1 => exact congrArg (fun t => t + 1) (main k j h)

lemma attCand_inj (base ext : String) : Function.Injective (attCand base ext) := by
  have e2 : ("-" : String).data = ['-'] := rfl
  have main : ∀ k j : Nat, attCand base ext (k + 1) = attCand base ext (j + 1) → k = j := by
    intro k j h
    have hd := congrArg String.data h
    simp only [attCand, String.data_append, List.append_assoc] at hd
    have h2 := (List.append_inj hd rfl).2
    have h3 := (List.append_inj h2 rfl).2
    have hlen : (natRepr (k + 2)).data.length = (natRepr (j + 2)).data.length := by
      have := congrArg List.length h3
      simp only [List.length_append] at this
      omega
    have h4 := (List.append_inj h3 hlen).1
    have := natRepr_inj (string_data_inj h4)
    omega
  have zs : ∀ k : Nat, attCand base ext 0 ≠ attCand base ext (k + 1) := by
    intro k h
    have hd := congrArg String.data h
    simp only [attCand, String.data_append, List.append_assoc] at hd
    have h2 := (List.append_inj hd rfl).2
    have := congrArg List.length h2
    simp only [List.length_append, List.length_cons] at this
    omega
  intro i j h
  match i, j with
  | 0, 0 => rfl
  | 0, k + 1 => exact absurd h (zs k)
  | k + 1, 0 => exact absurd h.symm (zs k)
  | k + 1, j + 1 => exact congrArg (fun t => t + 1) (main k j h)

/-! ## Lemmas: the collision-avoiding search -/

lemma firstFreshAux_eq (cand : Nat → String) (blocked : List String) :
    ∀ (fuel i₀ i : Nat), i₀ ≤ i → i ≤ i₀ + fuel → cand i ∉ blocked →
      (∀ j, i₀ ≤ j → j < i → cand j ∈ blocked) →
      firstFreshAux cand blocked fuel i₀ = cand i
  | 0, i₀, i, h1, h2, _, _ => by
    have : i = i₀ := by omega
    subst this; rfl
  | fuel + 1, i₀, i, h1, h2, h3, h4 => by
    by_cases hb : cand i₀ ∈ blocked
    · have hne : i ≠ i₀ := fun he => h3 (he ▸ hb)
      show (if cand i₀ ∈ blocked then firstFreshAux cand blocked fuel (i₀ + 1) else cand i₀) = _
      rw [if_pos hb]
      exact firstFreshAux_eq cand blocked fuel (i₀ + 1) i (by omega) (by omega) h3
        (fun j hj1 hj2 => h4 j (by omega) hj2)
    · show (if cand i₀ ∈ blocked then firstFreshAux cand blocked fuel (i₀ + 1) else cand i₀) = _
      rw [if_neg hb]
      have : i = i₀ := by
        by_contra hne
        exact hb (h4 i₀ le_rfl (by omega))
      rw [this]

lemma firstFreshAux_is_cand (cand : Nat → String) (blocked : List String) :
    ∀ (fuel i₀ : Nat), ∃ i, firstFreshAux cand blocked fuel i₀ = cand i
  | 0, i₀ => ⟨i₀, rfl⟩
  | fuel + 1, i₀ => by
    by_cases hb : cand i₀ ∈ blocked
    · have := firstFreshAux_is_cand cand blocked fuel (i₀ + 1)
      simpa [firstFreshAux, if_pos hb] using this
    · exact ⟨i₀, by simp [firstFreshAux, if_neg hb]⟩

lemma firstFresh_is_cand (cand : Nat → String) (blocked : List String) :
    ∃ i, firstFresh cand blocked = cand i :=
  firstFreshAux_is_cand cand blocked (blocked.length + 1) 0

lemma nodup_subset_length {l₁ l₂ : List String} (h : l₁.Nodup) (hs : l₁ ⊆ l₂) :
    l₁.length ≤ l₂.length := by
  classical
  calc l₁.length = l₁.toFinset.card := (List.toFinset_card_of_nodup h).symm
    _ ≤ l₂.toFinset.card := Finset.card_le_card fun x hx => by
        simp only [List.mem_toFinset] at hx ⊢
        exact hs hx
    _ ≤ l₂.length := l₂.toFinset_card_le

lemma exists_least_fresh (cand : Nat → String) (hinj : Function.Injective cand)
    (blocked : List String) :
    ∃ i, i ≤ blocked.length ∧ cand i ∉ blocked ∧ ∀ j < i, cand j ∈ blocked := by
  have hbound : ∃ k, k ≤ blocked.length ∧ cand k ∉ blocked := by
    by_contra hc
    push_neg at hc
    have hsub : ((List.range (blocked.length + 1)).map cand) ⊆ blocked := by
      intro x hx
      simp only [List.mem_map, List.mem_range] at hx
      obtain ⟨k, hk, rfl⟩ := hx
      exact hc k (by omega)
    have hnd : ((List.range (blocked.length + 1)).map cand).Nodup :=
      (List.nodup_range _).map hinj
    have := nodup_subset_length hnd hsub
    simp at this
  obtain ⟨k, hk, hkf⟩ := hbound
  have hex : ∃ j, cand j ∉ blocked := ⟨k, hkf⟩
  refine ⟨Nat.find hex, le_trans (Nat.find_min' hex hkf) hk, Nat.find_spec hex,
    fun j hj => ?_⟩
  have := Nat.find_min hex hj
  exact not_not.mp this

lemma firstFresh_spec (cand : Nat → String) (hinj : Function.Injective cand)
    (blocked : List String) :
    ∃ i, i ≤ blocked.length ∧ firstFresh cand blocked = cand i ∧ cand i ∉ blocked ∧
      ∀ j < i, cand j ∈ blocked := by
  obtain ⟨i, hle, hf, hmin⟩ := exists_least_fresh cand hinj blocked
  exact ⟨i, hle, firstFreshAux_eq cand blocked (blocked.length + 1) 0 i (by omega) (by omega)
    hf (fun j _ hj => hmin j hj), hf, hmin⟩

lemma firstFresh_not_mem (cand : Nat → String) (hinj : Function.Injective cand)
    (blocked : List String) : firstFresh cand blocked ∉ blocked := by
  obtain ⟨i, _, he, hf, _⟩ := firstFresh_spec cand hinj blocked
  rw [he]; exact hf

lemma firstFresh_append (cand : Nat → String) (hinj : Function.Injective cand)
    (blocked extra : List String)
    (h : firstFresh cand blocked ∉ blocked ++ extra) :
    firstFresh cand (blocked ++ extra) = firstFresh cand blocked := by
  obtain ⟨i, hle, he, hf, hmin⟩ := firstFresh_spec cand hinj blocked
  rw [he] at h ⊢
  refine firstFreshAux_eq cand (blocked ++ extra) ((blocked ++ extra).length + 1) 0 i
    (by omega) ?_ h (fun j _ hj => List.mem_append.mpr (Or.inl (hmin j hj)))
  have : blocked.length ≤ (blocked ++ extra).length := by
    simp [List.length_append]
  omega

lemma firstFresh_congr (cand : Nat → String) (hinj : Function.Injective cand)
    (b₁ b₂ : List String) (hmem : ∀ x, x ∈ b₁ ↔ x ∈ b₂) :
    firstFresh cand b₁ = firstFresh cand b₂ := by
  obtain ⟨i₁, _, he₁, hf₁, hmin₁⟩ := firstFresh_spec cand hinj b₁
  obtain ⟨i₂, _, he₂, hf₂, hmin₂⟩ := firstFresh_spec cand hinj b₂
  have : i₁ = i₂ := by
    by_contra hne
    rcases Nat.lt_or_ge i₁ i₂ with hlt | hge
    · exact hf₁ ((hmem _).mpr (hmin₂ i₁ hlt))
    · have : i₂ < i₁ := by omega
      exact hf₂ ((hmem _).mp (hmin₁ i₂ this))
  rw [he₁, he₂, this]

/-! ## Lemmas: sorting -/

lemma keyLe_of_eq {a b : Note × String} (h : sortKey b.1 = sortKey a.1) : keyLe a b := by
  have h1 : (sortKey b.1).1 = (sortKey a.1).1 := by rw [h]
  have h2 : (sortKey b.1).2 = (sortKey a.1).2 := by rw [h]
  unfold keyLe
  omega

lemma filter_orderedInsert (k : Nat × Int) (a : Note × String) :
    ∀ l : List (Note × String),
      (List.orderedInsert keyLe a l).filter (fun p => decide (sortKey p.1 = k)) =
        if sortKey a.1 = k then a :: l.filter (fun p => decide (sortKey p.1 = k))
        else l.filter (fun p => decide (sortKey p.1 = k))
  | [] => by
    by_cases hk : sortKey a.1 = k <;> simp [List.orderedInsert, hk]
  | b :: t => by
    by_cases hle : keyLe a b
    · rw [show List.orderedInsert keyLe a (b :: t) = a :: b :: t from by
        simp [List.orderedInsert, hle]]
      by_cases hk : sortKey a.1 = k <;> simp [List.filter_cons, hk]
    · have hbna : sortKey b.1 ≠ sortKey a.1 := fun he => hle (keyLe_of_eq he)
      rw [show List.orderedInsert keyLe a (b :: t) = b :: List.orderedInsert keyLe a t from by
        simp [List.orderedInsert, hle]]
      rw [List.filter_cons, List.filter_cons, filter_orderedInsert k a t]
      by_cases hk : sortKey a.1 = k
      · have hbk : ¬ (sortKey b.1 = k) := fun hh => hbna (by rw [hh, hk])
        simp [hk, hbk]
      · by_cases hbk : sortKey b.1 = k <;> simp [hk, hbk]

lemma filter_insertionSort (k : Nat × Int) :
    ∀ l : List (Note × String),
      (sortNotes l).filter (fun p => decide (sortKey p.1 = k)) =
        l.filter (fun p => decide (sortKey p.1 = k))
  | [] => rfl
  | a :: t => by
    show (List.orderedInsert keyLe a (List.insertionSort keyLe t)).filter _ = _
    rw [filter_orderedInsert k a (List.insertionSort keyLe t)]
    have ht := filter_insertionSort k t
    unfold sortNotes at ht
    rw [ht, List.filter_cons]
    by_cases hk : sortKey a.1 = k <;> simp [hk]

/-! ## Lemmas: the renderer -/

lemma joinLines_cons_of_ne_nil (x : String) {l : List String} (h : l ≠ []) :
    joinLines (x :: l) = x ++ "\n" ++ joinLines l := by
  cases l with
  | nil => exact absurd rfl h
  | cons y rest => rfl

lemma joinLines_append_last : ∀ (l : List String) (y : String), l ≠ [] →
    joinLines (l ++ [y]) = joinLines l ++ "\n" ++ y
  | [], y, h => absurd rfl h
  | [x], y, _ => rfl
  | x :: z :: rest, y, _ => by
    have ih := joinLines_append_last (z :: rest) y (by simp)
    rw [show (x :: z :: rest) ++ [y] = x :: ((z :: rest) ++ [y]) from rfl,
      joinLines_cons_of_ne_nil x (by simp), ih,
      joinLines_cons_of_ne_nil x (by simp : (z :: rest : List String) ≠ [])]
    simp [String.append_assoc]

lemma data_head_append {s : String} (t : String) {c : Char} (h : s.data.head? = some c) :
    (s ++ t).data.head? = some c := by
  cases s with
  | mk d =>
    cases d with
    | nil => simp at h
    | cons a tl =>
      simp only [List.head?_cons, Option.some.injEq] at h
      rw [String.data_append]
      simp [h]

lemma data_getLast_append (s : String) {t : String} {c : Char} (h : t.data.getLast? = some c) :
    (s ++ t).data.getLast? = some c := by
  rw [String.data_append, List.getLast?_append_of_ne_nil]
  · exact h
  · intro he
    rw [he] at h
    simp at h

lemma pyStrip_eq_self {s : String} {c₁ c₂ : Char}
    (h1 : s.data.head? = some c₁) (hw1 : pyWS c₁ = false)
    (h2 : s.data.getLast? = some c₂) (hw2 : pyWS c₂ = false) :
    pyStrip s = s := by
  apply string_data_inj
  show stripChars s.data = s.data
  unfold stripChars
  have hdw : s.data.dropWhile pyWS = s.data := by
    cases hd : s.data with
    | nil => simp
    | cons a tl =>
      rw [hd] at h1
      simp only [List.head?_cons, Option.some.injEq] at h1
      subst h1
      rw [List.dropWhile_cons, hw1]
      simp
  rw [hdw]
  have hrw : s.data.reverse.dropWhile pyWS = s.data.reverse := by
    cases hr : s.data.reverse with
    | nil => simp [hr]
    | cons a tl =>
      have hh : s.data.reverse.head? = s.data.getLast? := List.head?_reverse s.data
      rw [hr, h2] at hh
      simp only [List.head?_cons, Option.some.injEq] at hh
      subst hh
      rw [List.dropWhile_cons, hw2]
      simp
  rw [hrw, List.reverse_reverse]

lemma hasColored_of_lookup {note : Note} {hex : String}
    (hhex : colorLookup (colorLabel note) = some hex)
    (hne : colorLabel note ≠ "DEFAULT") :
    hasColoredBackground note = true := by
  unfold hasColoredBackground
  rw [hhex]
  simp [hne]

lemma divOpenLine_head (hex : String) : (divOpenLine hex).data.head? = some '<' := by
  unfold divOpenLine
  apply data_head_append
  apply data_head_append
  rfl

lemma note_to_markdown_colored (now : Int) (note : Note)
    (refs : List (String × String × String)) (hex : String)
    (hc : hasColoredBackground note = true)
    (hhex : colorLookup (colorLabel note) = some hex) :
    note_to_markdown now note refs
      = divOpenLine hex ++ "\n\n" ++
        joinLines (bodyCore note refs ++ [footerLine now note]) ++ "\n</div>\n" := by
  unfold note_to_markdown
  rw [hc, hhex]
  simp only [if_true, Option.getD_some]
  have hx : ([divOpenLine hex, ""] ++ bodyCore note refs ++ [footerLine now note, "</div>"])
      = divOpenLine hex :: "" :: ((bodyCore note refs ++ [footerLine now note]) ++ ["</div>"]) := by
    simp
  rw [hx]
  have h1 : joinLines (divOpenLine hex :: "" ::
        ((bodyCore note refs ++ [footerLine now note]) ++ ["</div>"]))
      = divOpenLine hex ++ "\n" ++ ("" ++ "\n" ++
          (joinLines (bodyCore note refs ++ [footerLine now note]) ++ "\n" ++ "</div>")) := by
    rw [joinLines_cons_of_ne_nil _ (by simp), joinLines_cons_of_ne_nil _ (by simp),
      joinLines_append_last _ _ (by simp)]
  rw [h1]
  have hstrip : pyStrip (divOpenLine hex ++ "\n" ++ ("" ++ "\n" ++
        (joinLines (bodyCore note refs ++ [footerLine now note]) ++ "\n" ++ "</div>")))
      = divOpenLine hex ++ "\n" ++ ("" ++ "\n" ++
        (joinLines (bodyCore note refs ++ [footerLine now note]) ++ "\n" ++ "</div>")) := by
    apply pyStrip_eq_self
    · apply data_head_append
      apply data_head_append
      exact divOpenLine_head hex
    · rfl
    · apply data_getLast_append
      apply data_getLast_append
      apply data_getLast_append
      rfl
    · rfl
  rw [hstrip]
  apply string_data_inj
  simp [String.data_append, List.append_assoc]

lemma note_to_markdown_plain (now : Int) (note : Note)
    (refs : List (String × String × String))
    (hc : hasColoredBackground note = false) :
    note_to_markdown now note refs
      = pyStrip (joinLines (bodyCore note refs ++ [footerLine now note])) ++ "\n" := by
  unfold note_to_markdown
  rw [hc]
  simp

/-! ## Lemmas: the orchestrator -/

lemma get_unique_attachment_name_spec (original : String) (target used : List String) :
    (get_unique_attachment_name original target used).1 ∉ used ∧
    (get_unique_attachment_name original target used).1 ∉ target ∧
    (get_unique_attachment_name original target used).2
      = (get_unique_attachment_name original target used).1 :: used := by
  have h := firstFresh_not_mem (attCand (attBaseOf original) (attExtOf original))
    (attCand_inj _ _) (used ++ target)
  rw [List.mem_append] at h
  push_neg at h
  exact ⟨h.1, h.2, rfl⟩

lemma processAtt_spec (env : Env) (opts : Opts) (filepath : String) (att : JValue)
    (refs : List (String × String × String)) (st : ExpState) :
    processAtt env opts filepath att (refs, st) = (refs, st) ∨
    ∃ kv rel, att = .obj kv ∧ jGet kv "filePath" = some (.str rel) ∧ rel ≠ "" ∧
      env.isfile filepath rel = true ∧
      (let r := get_unique_attachment_name rel (env.preRes ++ st.writesRes) st.used
       let st1 : ExpState := { st with used := r.2, allocAtts := st.allocAtts ++ [r.1] }
       let ref := (pyBasename rel, "resources/" ++ r.1, jStrD (jGet kv "mimetype") "")
       (opts.dry_run = true ∧
          processAtt env opts filepath att (refs, st) = (refs ++ [ref], st1)) ∨
       (opts.dry_run = false ∧ env.copyOk filepath rel = true ∧
          processAtt env opts filepath att (refs, st)
            = (refs ++ [ref], { st1 with writesRes := st1.writesRes ++ [r.1] })) ∨
       (opts.dry_run = false ∧ env.copyOk filepath rel = false ∧
          processAtt env opts filepath att (refs, st)
            = (refs, { st1 with stats := { st1.stats with errors := st1.stats.errors + 1 } }))) := by
  cases att with
  | obj kv =>
    cases hfp : jGet kv "filePath" with
    | none => left; simp [processAtt, hfp]
    | some v =>
      cases v with
      | str rel =>
        by_cases h1 : rel = ""
        · left; simp [processAtt, hfp, h1]
        · by_cases h2 : env.isfile filepath rel
          · right
            refine ⟨kv, rel, rfl, hfp, h1, h2, ?_⟩
            by_cases h3 : opts.dry_run
            · exact Or.inl ⟨h3, by simp [processAtt, hfp, h1, h2, h3]⟩
            · by_cases h4 : env.copyOk filepath rel
              · refine Or.inr (Or.inl ⟨by simpa using h3, h4, ?_⟩)
                simp [processAtt, hfp, h1, h2, h3, h4]
              · refine Or.inr (Or.inr ⟨by simpa using h3, by simpa using h4, ?_⟩)
                simp [processAtt, hfp, h1, h2, h3, h4]
          · left; simp [processAtt, hfp, h1, h2]
      | null => left; simp [processAtt, hfp]
      | bool b => left; simp [processAtt, hfp]
      | int n => left; simp [processAtt, hfp]
      | arr xs => left; simp [processAtt, hfp]
      | obj kvs => left; simp [processAtt, hfp]
  | null => left; rfl
  | bool b => left; rfl
  | int n => left; rfl
  | str s => left; rfl
  | arr xs => left; rfl

lemma processAtt_preserves (env : Env) (opts : Opts) (filepath : String) (att : JValue)
    (refs : List (String × String × String)) (st : ExpState) :
    (processAtt env opts filepath att (refs, st)).2.writesOut = st.writesOut ∧
    (processAtt env opts filepath att (refs, st)).2.allocNotes = st.allocNotes ∧
    (processAtt env opts filepath att (refs, st)).2.stats.exported = st.stats.exported := by
  rcases processAtt_spec env opts filepath att refs st with h | ⟨kv, rel, _, _, _, _, h⟩
  · rw [h]
    exact ⟨rfl, rfl, rfl⟩
  · rcases h with ⟨_, h⟩ | ⟨_, _, h⟩ | ⟨_, _, h⟩ <;> rw [h] <;> exact ⟨rfl, rfl, rfl⟩

lemma attFold_preserves (env : Env) (opts : Opts) (filepath : String) :
    ∀ (atts : List JValue) (acc : List (String × String × String) × ExpState),
      ((atts.foldl (fun a att => processAtt env opts filepath att a) acc).2.writesOut
          = acc.2.writesOut) ∧
      ((atts.foldl (fun a att => processAtt env opts filepath att a) acc).2.allocNotes
          = acc.2.allocNotes) ∧
      ((atts.foldl (fun a att => processAtt env opts filepath att a) acc).2.stats.exported
          = acc.2.stats.exported)
  | [], acc => ⟨rfl, rfl, rfl⟩
  | att :: rest, acc => by
    have hstep := processAtt_preserves env opts filepath att acc.1 acc.2
    have hrest := attFold_preserves env opts filepath rest (processAtt env opts filepath att acc)
    simp only [List.foldl_cons]
    refine ⟨?_, ?_, ?_⟩
    · rw [hrest.1, hstep.1]
    · rw [hrest.2.1, hstep.2.1]
    · rw [hrest.2.2, hstep.2.2]

lemma pairwise_append_single {l : List String} {x : String}
    (hl : l.Pairwise (fun a b => a ≠ b)) (hx : ∀ y ∈ l, y ≠ x) :
    (l ++ [x]).Pairwise (fun a b => a ≠ b) := by
  rw [List.pairwise_append]
  exact ⟨hl, List.pairwise_singleton _ _, fun a ha b hb => by
    simp only [List.mem_singleton] at hb
    subst hb
    exact hx a ha⟩

lemma processAtt_attInv (env : Env) (opts : Opts) (filepath : String) (att : JValue)
    (refs : List (String × String × String)) (st : ExpState) (h : AttAllocInv st) :
    AttAllocInv (processAtt env opts filepath att (refs, st)).2 := by
  obtain ⟨hpw, hsub⟩ := h
  rcases processAtt_spec env opts filepath att refs st with heq | ⟨kv, rel, _, _, _, _, hout⟩
  · rw [heq]; exact ⟨hpw, hsub⟩
  · have hn := get_unique_attachment_name_spec rel (env.preRes ++ st.writesRes) st.used
    have hcore : AttAllocInv
        { st with used := (get_unique_attachment_name rel (env.preRes ++ st.writesRes) st.used).2,
                  allocAtts := st.allocAtts ++
                    [(get_unique_attachment_name rel (env.preRes ++ st.writesRes) st.used).1] } := by
      constructor
      · exact pairwise_append_single hpw (fun y hy he => hn.1 (he ▸ hsub y hy))
      · intro x hx
        rw [List.mem_append] at hx
        rw [hn.2.2]
        rcases hx with hx | hx
        · exact List.mem_cons_of_mem _ (hsub x hx)
        · simp only [List.mem_singleton] at hx
          subst hx
          exact List.mem_cons_self _ _
    rcases hout with ⟨_, hout⟩ | ⟨_, _, hout⟩ | ⟨_, _, hout⟩ <;> rw [hout] <;>
      exact ⟨hcore.1, hcore.2⟩

lemma attFold_attInv (env : Env) (opts : Opts) (filepath : String) :
    ∀ (atts : List JValue) (refs : List (String × String × String)) (st : ExpState),
      AttAllocInv st →
      AttAllocInv ((atts.foldl (fun a att => processAtt env opts filepath att a) (refs, st)).2)
  | [], refs, st, h => h
  | att :: rest, refs, st, h => by
    simp only [List.foldl_cons]
    have hstep := processAtt_attInv env opts filepath att refs st h
    have := attFold_attInv env opts filepath rest
      (processAtt env opts filepath att (refs, st)).1
      (processAtt env opts filepath att (refs, st)).2 hstep
    simpa using this

lemma processNote_attInv (env : Env) (opts : Opts) (now : Int) (st : ExpState)
    (pair : Note × String) (h : AttAllocInv st) :
    AttAllocInv (processNote env opts now st pair) := by
  unfold processNote
  have hra := attFold_attInv env opts pair.2 pair.1.attachments [] st h
  obtain ⟨hpw, hsub⟩ := hra
  by_cases h1 : opts.dry_run
  · simp only [h1, if_true]
    exact ⟨hpw, hsub⟩
  · simp only [h1, if_false]
    by_cases h2 : env.writeOk pair.2
    · simp only [h2, if_true]
      exact ⟨hpw, hsub⟩
    · simp only [h2, if_false]
      exact ⟨hpw, hsub⟩

lemma queueFold_attInv (env : Env) (opts : Opts) (now : Int) :
    ∀ (q : List (Note × String)) (st : ExpState), AttAllocInv st →
      AttAllocInv (q.foldl (processNote env opts now) st)
  | [], _, h => h
  | p :: rest, st, h => by
    simp only [List.foldl_cons]
    exact queueFold_attInv env opts now rest _ (processNote_attInv env opts now st p h)

lemma run_same_base (env : Env) (opts : Opts) (now : Int) (b : String)
    (hdry : opts.dry_run = false) (hw : ∀ f, env.writeOk f = true) (hpre : env.preOut = []) :
    ∀ (q : List (Note × String)) (st : ExpState) (k : Nat),
      (∀ p ∈ q, noteBaseOf p.1.title p.1.created_usec = b) →
      st.writesOut.map (fun w => w.1) = (List.range k).map (noteCand b) →
      ((q.foldl (processNote env opts now) st).writesOut.map (fun w => w.1)
          = (List.range (k + q.length)).map (noteCand b)) ∧
      ((q.foldl (processNote env opts now) st).allocNotes
          = st.allocNotes ++ (List.range' k q.length).map (noteCand b))
  | [], st, k, _, hW => by
    constructor
    · simpa using hW
    · simp [List.range']
  | p :: rest, st, k, hq, hW => by
    have hbase : noteBaseOf p.1.title p.1.created_usec = b := hq p (by simp)
    have hpres := attFold_preserves env opts p.2 p.1.attachments ([], st)
    have hsafe : get_safe_filename p.1.title
        (env.preOut ++ (List.range k).map (noteCand b)) p.1.created_usec = noteCand b k := by
      unfold get_safe_filename noteBaseOf
      rw [show (let base := sanitize_note_filename p.1.title;
            if base = "" then "note-" ++ intRepr p.1.created_usec else base)
          = noteBaseOf p.1.title p.1.created_usec from rfl, hbase, hpre]
      rw [List.nil_append]
      apply firstFreshAux_eq
      · omega
      · have : ((List.range k).map (noteCand b)).length = k := by simp
        omega
      · intro hmem
        simp only [List.mem_map, List.mem_range] at hmem
        obtain ⟨j, hj, hje⟩ := hmem
        have := noteCand_inj b hje
        omega
      · intro j _ hj
        simp only [List.mem_map, List.mem_range]
        exact ⟨j, hj, rfl⟩
    have hsafe' : get_safe_filename p.1.title (env.preOut ++
          ((p.1.attachments.foldl (fun a att => processAtt env opts p.2 att a)
            ([], st)).2.writesOut.map (fun w => w.1))) p.1.created_usec = noteCand b k := by
      rw [hpres.1]
      show get_safe_filename p.1.title (env.preOut ++ st.writesOut.map (fun w => w.1)) _ = _
      rw [hW]
      exact hsafe
    have hstep : (processNote env opts now st p).writesOut.map (fun w => w.1)
          = (List.range (k + 1)).map (noteCand b) ∧
        (processNote env opts now st p).allocNotes = st.allocNotes ++ [noteCand b k] := by
      unfold processNote
      rw [hdry]
      simp only [Bool.false_eq_true, if_false]
      rw [hw p.2]
      simp only [if_true]
      constructor
      · simp only [List.map_append, hpres.1]
        rw [hW]
        simp only [List.map_cons, List.map_nil]
        rw [hsafe, List.range_succ]
        simp
      · simp only [hpres.2.1, hpres.1]
        rw [hW, hsafe]
    have hrest := run_same_base env opts now b hdry hw hpre rest
      (processNote env opts now st p) (k + 1)
      (fun x hx => hq x (by simp [hx])) hstep.1
    constructor
    · simp only [List.foldl_cons]
      rw [hrest.1]
      have : k + 1 + rest.length = k + (p :: rest).length := by simp; omega
      rw [this]
    · simp only [List.foldl_cons]
      rw [hrest.2, hstep.2]
      rw [show (p :: rest).length = rest.length + 1 from rfl, List.range'_succ k rest.length 1]
      simp

/-! ## Lemmas: dry run versus real run -/

lemma collectNotes_dry_irrel (d₁ d₂ it ia : Bool) :
    ∀ (files : List (String × Option JValue)) (s : Stats) (q : List (Note × String)),
      collectNotes ⟨d₁, it, ia⟩ files s q = collectNotes ⟨d₂, it, ia⟩ files s q
  | [], s, q => rfl
  | (fp, raw) :: rest, s, q => by
    unfold collectNotes
    cases hp : parse_note_json raw with
    | error e => rfl
    | ok ores =>
      cases ores with
      | none =>
        dsimp only
        exact collectNotes_dry_irrel d₁ d₂ it ia rest _ _
      | some note =>
        dsimp only
        split_ifs <;> exact collectNotes_dry_irrel d₁ d₂ it ia rest _ _

lemma processAtt_dry_writesRes (env : Env) (opts : Opts) (hd : opts.dry_run = true)
    (filepath : String) (att : JValue) (refs : List (String × String × String))
    (st : ExpState) :
    (processAtt env opts filepath att (refs, st)).2.writesRes = st.writesRes := by
  rcases processAtt_spec env opts filepath att refs st with heq | ⟨kv, rel, _, _, _, _, hout⟩
  · rw [heq]
  · rcases hout with ⟨_, hout⟩ | ⟨hdf, _, _⟩ | ⟨hdf, _, _⟩
    · rw [hout]
    · rw [hd] at hdf
      exact absurd hdf (by simp)
    · rw [hd] at hdf
      exact absurd hdf (by simp)

lemma attFold_dry_writesRes (env : Env) (opts : Opts) (hd : opts.dry_run = true)
    (filepath : String) :
    ∀ (atts : List JValue) (acc : List (String × String × String) × ExpState),
      ((atts.foldl (fun a att => processAtt env opts filepath att a) acc).2.writesRes
          = acc.2.writesRes)
  | [], _ => rfl
  | att :: rest, acc => by
    simp only [List.foldl_cons]
    rw [attFold_dry_writesRes env opts hd filepath rest
      (processAtt env opts filepath att acc)]
    exact processAtt_dry_writesRes env opts hd filepath att acc.1 acc.2

lemma processNote_dry_writes (env : Env) (opts : Opts) (hd : opts.dry_run = true)
    (now : Int) (st : ExpState) (pair : Note × String) :
    (processNote env opts now st pair).writesOut = st.writesOut ∧
    (processNote env opts now st pair).writesRes = st.writesRes := by
  have hpres := attFold_preserves env opts pair.2 pair.1.attachments ([], st)
  have hres := attFold_dry_writesRes env opts hd pair.2 pair.1.attachments ([], st)
  unfold processNote
  rw [hd]
  simp only [if_true]
  exact ⟨hpres.1, hres⟩

lemma queueFold_dry_writes (env : Env) (opts : Opts) (hd : opts.dry_run = true) (now : Int) :
    ∀ (q : List (Note × String)) (st : ExpState),
      ((q.foldl (processNote env opts now) st).writesOut = st.writesOut) ∧
      ((q.foldl (processNote env opts now) st).writesRes = st.writesRes)
  | [], _ => ⟨rfl, rfl⟩
  | p :: rest, st => by
    simp only [List.foldl_cons]
    have hstep := processNote_dry_writes env opts hd now st p
    have hrest := queueFold_dry_writes env opts hd now rest (processNote env opts now st p)
    exact ⟨hrest.1.trans hstep.1, hrest.2.trans hstep.2⟩

lemma dry_allocNotes (env : Env) (opts : Opts) (now : Int) (hd : opts.dry_run = true) :
    ∀ (q : List (Note × String)) (st : ExpState), st.writesOut = [] →
      (q.foldl (processNote env opts now) st).allocNotes
        = st.allocNotes ++ q.map (dryNoteName env)
  | [], st, _ => by simp
  | p :: rest, st, h => by
    have hpres := attFold_preserves env opts p.2 p.1.attachments ([], st)
    have hstep : (processNote env opts now st p).allocNotes
          = st.allocNotes ++ [dryNoteName env p] ∧
        (processNote env opts now st p).writesOut = [] := by
      unfold processNote
      rw [hd]
      simp only [if_true]
      refine ⟨?_, by rw [hpres.1]; exact h⟩
      rw [hpres.2.1, hpres.1, h]
      show st.allocNotes ++ [get_safe_filename p.1.title (env.preOut ++ []) p.1.created_usec]
          = _
      rw [List.append_nil]
      rfl
    simp only [List.foldl_cons]
    rw [dry_allocNotes env opts now hd rest (processNote env opts now st p) hstep.2, hstep.1]
    simp

lemma real_allocNotes (env : Env) (opts : Opts) (now : Int)
    (hr : opts.dry_run = false) (hw : ∀ f, env.writeOk f = true) :
    ∀ (q : List (Note × String)) (st : ExpState) (W : List String),
      st.writesOut.map (fun w => w.1) = W →
      (∀ p ∈ q, dryNoteName env p ∉ W) →
      (q.map (dryNoteName env)).Pairwise (fun a c => a ≠ c) →
      ((q.foldl (processNote env opts now) st).allocNotes
          = st.allocNotes ++ q.map (dryNoteName env)) ∧
      ((q.foldl (processNote env opts now) st).writesOut.map (fun w => w.1)
          = W ++ q.map (dryNoteName env))
  | [], st, W, hW, _, _ => by
    constructor
    · simp
    · simp only [List.foldl_nil, List.map_nil, List.append_nil]
      exact hW
  | p :: rest, st, W, hW, hnotin, hpw => by
    rw [List.map_cons] at hpw
    have hpres := attFold_preserves env opts p.2 p.1.attachments ([], st)
    have hdn : dryNoteName env p ∉ env.preOut := by
      unfold dryNoteName get_safe_filename
      exact firstFresh_not_mem _ (noteCand_inj _) _
    have hsafe : get_safe_filename p.1.title (env.preOut ++ W) p.1.created_usec
        = dryNoteName env p := by
      unfold dryNoteName get_safe_filename
      apply firstFresh_append _ (noteCand_inj _)
      rw [List.mem_append]
      push_neg
      unfold dryNoteName at hdn hnotin
      unfold get_safe_filename at hdn
      exact ⟨hdn, by
        have := hnotin p (by simp)
        unfold get_safe_filename at this
        exact this⟩
    have hstep : (processNote env opts now st p).allocNotes
          = st.allocNotes ++ [dryNoteName env p] ∧
        (processNote env opts now st p).writesOut.map (fun w => w.1)
          = W ++ [dryNoteName env p] := by
      unfold processNote
      rw [hr]
      simp only [Bool.false_eq_true, if_false]
      rw [hw p.2]
      simp only [if_true]
      constructor
      · rw [hpres.2.1, hpres.1]
        show st.allocNotes ++
            [get_safe_filename p.1.title (env.preOut ++ st.writesOut.map (fun w => w.1))
              p.1.created_usec] = _
        rw [hW, hsafe]
      · simp only [List.map_append, hpres.1]
        show List.map (fun w => w.1) st.writesOut ++
            [get_safe_filename p.1.title (env.preOut ++ st.writesOut.map (fun w => w.1))
              p.1.created_usec] = _
        rw [hW, hsafe]
    have hrest := real_allocNotes env opts now hr hw rest (processNote env opts now st p)
      (W ++ [dryNoteName env p]) hstep.2
      (by
        intro x hx
        rw [List.mem_append]
        push_neg
        refine ⟨hnotin x (by simp [hx]), ?_⟩
        simp only [List.mem_singleton]
        have hpwh := List.rel_of_pairwise_cons hpw (List.mem_map_of_mem (dryNoteName env) hx)
        exact fun he => hpwh he.symm)
      (List.Pairwise.of_cons hpw)
    simp only [List.foldl_cons]
    refine ⟨?_, ?_⟩
    · rw [hrest.1, hstep.1]
      simp
    · rw [hrest.2]
      simp

lemma dryreal_of_skip {env : Env} {optsD optsR : Opts} {filepath : String} {att : JValue}
    {refs : List (String × String × String)} {sd sr : ExpState}
    (h1 : processAtt env optsD filepath att (refs, sd) = (refs, sd))
    (h2 : processAtt env optsR filepath att (refs, sr) = (refs, sr))
    (hinv : DryRealInv sd sr) :
    (processAtt env optsD filepath att (refs, sd)).1
        = (processAtt env optsR filepath att (refs, sr)).1 ∧
    DryRealInv (processAtt env optsD filepath att (refs, sd)).2
        (processAtt env optsR filepath att (refs, sr)).2 := by
  rw [h1, h2]
  exact ⟨rfl, hinv⟩

lemma processAtt_dryreal (env : Env) (optsD optsR : Opts)
    (hd : optsD.dry_run = true) (hr : optsR.dry_run = false)
    (hc : ∀ p r, env.copyOk p r = true)
    (filepath : String) (att : JValue) (refs : List (String × String × String))
    (sd sr : ExpState) (hinv : DryRealInv sd sr) :
    (processAtt env optsD filepath att (refs, sd)).1
        = (processAtt env optsR filepath att (refs, sr)).1 ∧
    DryRealInv (processAtt env optsD filepath att (refs, sd)).2
        (processAtt env optsR filepath att (refs, sr)).2 := by
  obtain ⟨hstats, hused, halloc, hwo, hwr, hsub⟩ := hinv
  have hKeep : DryRealInv sd sr := ⟨hstats, hused, halloc, hwo, hwr, hsub⟩
  cases att with
  | obj kv =>
    cases hfp : jGet kv "filePath" with
    | none =>
      exact dryreal_of_skip (by simp [processAtt, hfp]) (by simp [processAtt, hfp]) hKeep
    | some v =>
      cases v with
      | str rel =>
        by_cases h1 : rel = ""
        · exact dryreal_of_skip (by simp [processAtt, hfp, h1])
            (by simp [processAtt, hfp, h1]) hKeep
        · by_cases h2 : env.isfile filepath rel
          · have hname : get_unique_attachment_name rel (env.preRes ++ sd.writesRes) sd.used
                = get_unique_attachment_name rel (env.preRes ++ sr.writesRes) sr.used := by
              unfold get_unique_attachment_name
              have hff : firstFresh (attCand (attBaseOf rel) (attExtOf rel))
                  (sd.used ++ (env.preRes ++ sd.writesRes))
                  = firstFresh (attCand (attBaseOf rel) (attExtOf rel))
                    (sr.used ++ (env.preRes ++ sr.writesRes)) := by
                apply firstFresh_congr _ (attCand_inj _ _)
                intro x
                rw [hused, hwr]
                simp only [List.mem_append, List.append_nil]
                constructor
                · rintro (hx | hx)
                  · exact Or.inl hx
                  · exact Or.inr (Or.inl hx)
                · rintro (hx | hx | hx)
                  · exact Or.inl hx
                  · exact Or.inr hx
                  · exact Or.inl (hsub x hx)
              rw [hff, hused]
            have hspec := get_unique_attachment_name_spec rel
              (env.preRes ++ sr.writesRes) sr.used
            have hDres : processAtt env optsD filepath (.obj kv) (refs, sd)
                = (refs ++ [(pyBasename rel,
                    "resources/" ++
                      (get_unique_attachment_name rel (env.preRes ++ sr.writesRes) sr.used).1,
                    jStrD (jGet kv "mimetype") "")],
                   { sd with
                      used := (get_unique_attachment_name rel
                        (env.preRes ++ sr.writesRes) sr.used).2,
                      allocAtts := sd.allocAtts ++
                        [(get_unique_attachment_name rel
                          (env.preRes ++ sr.writesRes) sr.used).1] }) := by
              rw [show processAtt env optsD filepath (.obj kv) (refs, sd)
                  = (refs ++ [(pyBasename rel,
                      "resources/" ++
                        (get_unique_attachment_name rel (env.preRes ++ sd.writesRes) sd.used).1,
                      jStrD (jGet kv "mimetype") "")],
                     { sd with
                        used := (get_unique_attachment_name rel
                          (env.preRes ++ sd.writesRes) sd.used).2,
                        allocAtts := sd.allocAtts ++
                          [(get_unique_attachment_name rel
                            (env.preRes ++ sd.writesRes) sd.used).1] }) from by
                simp [processAtt, hfp, h1, h2, hd]]
              rw [hname]
            have hRres : processAtt env optsR filepath (.obj kv) (refs, sr)
                = (refs ++ [(pyBasename rel,
                    "resources/" ++
                      (get_unique_attachment_name rel (env.preRes ++ sr.writesRes) sr.used).1,
                    jStrD (jGet kv "mimetype") "")],
                   { sr with
                      used := (get_unique_attachment_name rel
                        (env.preRes ++ sr.writesRes) sr.used).2,
                      allocAtts := sr.allocAtts ++
                        [(get_unique_attachment_name rel
                          (env.preRes ++ sr.writesRes) sr.used).1],
                      writesRes := sr.writesRes ++
                        [(get_unique_attachment_name rel
                          (env.preRes ++ sr.writesRes) sr.used).1] }) := by
              simp [processAtt, hfp, h1, h2, hr, hc filepath rel]
            rw [hDres, hRres]
            refine ⟨rfl, hstats, rfl, by rw [halloc], hwo, hwr, ?_⟩
            intro x hx
            rw [List.mem_append] at hx
            rw [hspec.2.2]
            rcases hx with hx | hx
            · exact List.mem_cons_of_mem _ (hsub x hx)
            · simp only [List.mem_singleton] at hx
              subst hx
              exact List.mem_cons_self _ _
          · exact dryreal_of_skip (by simp [processAtt, hfp, h1, h2])
              (by simp [processAtt, hfp, h1, h2]) hKeep
      | null =>
        exact dryreal_of_skip (by simp [processAtt, hfp]) (by simp [processAtt, hfp]) hKeep
      | bool b =>
        exact dryreal_of_skip (by simp [processAtt, hfp]) (by simp [processAtt, hfp]) hKeep
      | int n =>
        exact dryreal_of_skip (by simp [processAtt, hfp]) (by simp [processAtt, hfp]) hKeep
      | arr xs =>
        exact dryreal_of_skip (by simp [processAtt, hfp]) (by simp [processAtt, hfp]) hKeep
      | obj kvs =>
        exact dryreal_of_skip (by simp [processAtt, hfp]) (by simp [processAtt, hfp]) hKeep
  | null => exact dryreal_of_skip rfl rfl hKeep
  | bool b => exact dryreal_of_skip rfl rfl hKeep
  | int n => exact dryreal_of_skip rfl rfl hKeep
  | str s => exact dryreal_of_skip rfl rfl hKeep
  | arr xs => exact dryreal_of_skip rfl rfl hKeep

lemma attFold_dryreal (env : Env) (optsD optsR : Opts)
    (hd : optsD.dry_run = true) (hr : optsR.dry_run = false)
    (hc : ∀ p r, env.copyOk p r = true) (filepath : String) :
    ∀ (atts : List JValue) (refsD refsR : List (String × String × String))
      (sd sr : ExpState), refsD = refsR → DryRealInv sd sr →
      ((atts.foldl (fun a att => processAtt env optsD filepath att a) (refsD, sd)).1
          = (atts.foldl (fun a att => processAtt env optsR filepath att a) (refsR, sr)).1) ∧
      DryRealInv
        (atts.foldl (fun a att => processAtt env optsD filepath att a) (refsD, sd)).2
        (atts.foldl (fun a att => processAtt env optsR filepath att a) (refsR, sr)).2
  | [], refsD, refsR, sd, sr, he, hinv => ⟨he, hinv⟩
  | att :: rest, refsD, refsR, sd, sr, he, hinv => by
    subst he
    have hstep := processAtt_dryreal env optsD optsR hd hr hc filepath att refsD sd sr hinv
    have hrest := attFold_dryreal env optsD optsR hd hr hc filepath rest
      (processAtt env optsD filepath att (refsD, sd)).1
      (processAtt env optsR filepath att (refsD, sr)).1
      (processAtt env optsD filepath att (refsD, sd)).2
      (processAtt env optsR filepath att (refsD, sr)).2
      hstep.1 hstep.2
    simpa using hrest

lemma processNote_dryreal (env : Env) (optsD optsR : Opts)
    (hd : optsD.dry_run = true) (hr : optsR.dry_run = false)
    (hc : ∀ p r, env.copyOk p r = true) (hw : ∀ f, env.writeOk f = true)
    (now : Int) (pair : Note × String) (sd sr : ExpState) (hinv : DryRealInv sd sr) :
    DryRealInv (processNote env optsD now sd pair) (processNote env optsR now sr pair) := by
  have hfold := attFold_dryreal env optsD optsR hd hr hc pair.2 pair.1.attachments
    [] [] sd sr rfl hinv
  obtain ⟨hrefs, hstats, hused, halloc, hwo, hwr, hsub⟩ := hfold
  unfold processNote
  rw [hd, hr]
  simp only [if_true, Bool.false_eq_true, if_false]
  rw [hw pair.2]
  simp only [if_true]
  refine ⟨by rw [hstats], hused, halloc, hwo, hwr, hsub⟩

lemma queueFold_dryreal (env : Env) (optsD optsR : Opts)
    (hd : optsD.dry_run = true) (hr : optsR.dry_run = false)
    (hc : ∀ p r, env.copyOk p r = true) (hw : ∀ f, env.writeOk f = true) (now : Int) :
    ∀ (q : List (Note × String)) (sd sr : ExpState), DryRealInv sd sr →
      DryRealInv (q.foldl (processNote env optsD now) sd)
        (q.foldl (processNote env optsR now) sr)
  | [], _, _, hinv => hinv
  | p :: rest, sd, sr, hinv => by
    simp only [List.foldl_cons]
    exact queueFold_dryreal env optsD optsR hd hr hc hw now rest _ _
      (processNote_dryreal env optsD optsR hd hr hc hw now p sd sr hinv)

/-! ## Claim theorems -/

/-- Claim C10 (confirmed): in both naming namespaces the first numeric disambiguator
    ever used is 2, never 1 — every result of `get_safe_filename` is either
    `base.md` or `base (k).md` with `k ≥ 2`, every result of
    `get_unique_attachment_name` is either `base ++ ext` or `base-k ++ ext` with
    `k ≥ 2`, and on a single collision the names chosen are `a (2).md` / `x-2.png`. -/
theorem claim_C10_first_disambiguator :
    (∀ (title : String) (existing : List String) (usec : Int),
      get_safe_filename title existing usec = noteBaseOf title usec ++ ".md" ∨
      ∃ k, 2 ≤ k ∧ get_safe_filename title existing usec
          = noteBaseOf title usec ++ " (" ++ natRepr k ++ ").md") ∧
    (∀ (original : String) (target used : List String),
      (get_unique_attachment_name original target used).1
          = attBaseOf original ++ attExtOf original ∨
      ∃ k, 2 ≤ k ∧ (get_unique_attachment_name original target used).1
          = attBaseOf original ++ "-" ++ natRepr k ++ attExtOf original) ∧
    get_safe_filename "a" ["a.md"] 0 = "a (2).md" ∧
    (get_unique_attachment_name "x.png" [] ["x.png"]).1 = "x-2.png" := by
  refine ⟨?_, ?_, by decide, by decide⟩
  · intro title existing usec
    obtain ⟨i, hi⟩ := firstFresh_is_cand (noteCand (noteBaseOf title usec)) existing
    match i, hi with
    | 0, hi => exact Or.inl hi
    | k + 1, hi => exact Or.inr ⟨k + 2, by omega, hi⟩
  · intro original target used
    obtain ⟨i, hi⟩ := firstFresh_is_cand (attCand (attBaseOf original) (attExtOf original))
      (used ++ target)
    match i, hi with
    | 0, hi => exact Or.inl hi
    | k + 1, hi => exact Or.inr ⟨k + 2, by omega, hi⟩

/-- Claim C7 (confirmed): the renderer emits exactly one checkbox line per checklist
    item, `- [x] text` / `- [ ] text`, in item order (the checklist loop appends
    `items.map checkboxLine`, on colored and plain backgrounds alike), and the spec's
    round-trip example renders exactly the two expected lines in order. -/
theorem claim_C7_checklist :
    (∀ (hasColored : Bool) (items : List (String × Bool)) (acc : List String),
      itemLinesLoop hasColored items acc = acc ++ items.map checkboxLine) ∧
    checkboxLine ("buy milk", false) = "- [ ] buy milk" ∧
    checkboxLine ("pay rent", true) = "- [x] pay rent" ∧
    note_to_markdown 0 milkNote []
      = "- [ ] buy milk\n- [x] pay rent\n" ++
        "<small style=\"color: #555;\">Created: 1970-01-01T00:00:00Z</small>\n" := by
  refine ⟨?_, by decide, by decide, by decide⟩
  intro hasColored items
  induction items with
  | nil => intro acc; simp [itemLinesLoop]
  | cons it rest ih =>
    intro acc
    have hline : (if hasColored then "- [" ++ (if it.2 then "x" else " ") ++ "] " ++ it.1
        else checkboxLine it) = checkboxLine it := by
      cases hasColored <;> simp [checkboxLine]
    show itemLinesLoop hasColored rest
        (acc ++ [if hasColored then "- [" ++ (if it.2 then "x" else " ") ++ "] " ++ it.1
          else checkboxLine it]) = _
    rw [hline, ih]
    simp

/-- Claim C1, counterexample: on the spec's own example — `(pinned, updated)` =
    (false,100), (true,50), (true,200) in discovery order — the code exports in the
    order (false,100), (true,50), (true,200) (the sort key puts unpinned notes first),
    not in the claimed order (true,50), (true,200), (false,100). -/
theorem claim_C1_counterexample :
    (convert_keep_notes envAllOk {} 0 c1files).map (fun o => o.allocNotes)
        = .ok ["a.md", "b.md", "c.md"] ∧
    (.ok ["a.md", "b.md", "c.md"] : Except PyErr (List String))
        ≠ .ok ["b.md", "c.md", "a.md"] :=
  ⟨by decide, by decide⟩

/-- Claim C1 (amended): the export queue is sorted with UNPINNED notes first, then
    pinned notes, each group by update time ascending, with ties broken by discovery
    order — `sortNotes` permutes the queue, sorts it by `keyLe` (under which every
    unpinned note precedes every pinned note), and is stable (the subsequence of
    notes with any fixed sort key is preserved). -/
theorem claim_C1_sort_order (l : List (Note × String)) :
    (sortNotes l).Perm l ∧
    List.Sorted keyLe (sortNotes l) ∧
    (∀ a b : Note × String, a.1.is_pinned = false → b.1.is_pinned = true → keyLe a b) ∧
    ∀ k : Nat × Int,
      (sortNotes l).filter (fun p => decide (sortKey p.1 = k)) =
        l.filter (fun p => decide (sortKey p.1 = k)) := by
  refine ⟨List.perm_insertionSort keyLe l, List.sorted_insertionSort keyLe l,
    ?_, fun k => filter_insertionSort k l⟩
  intro a b ha hb
  unfold keyLe sortKey
  rw [ha, hb]
  simp

/-- Witness for C1 (amended): the sort on the spec's example queue. -/
theorem claim_C1_witness :
    (sortNotes [({ title := "a", updated_usec := 100 }, "a.json")]).Perm
        [({ title := "a", updated_usec := 100 }, "a.json")] :=
  (claim_C1_sort_order [({ title := "a", updated_usec := 100 }, "a.json")]).1

/-- Claim C3 (code bug): a record whose `createdTimestampUsec` is a truthy
    non-numeric value makes `int(data.get(...) or 0)` raise an uncaught `ValueError`,
    which propagates out of `convert_keep_notes` and aborts the batch — contrary to
    the claim (and the spec), which says such fields default to 0 and that
    record-level parse problems never abort the batch.  Genuine decode failures are
    indeed skipped: they yield `None` and increment `skipped_invalid` only. -/
theorem claim_C3_code_bug :
    parse_note_json (some c3failRecord) = .error .valueError ∧
    convert_keep_notes envAllOk {} 0 [("n.json", some c3failRecord)] = .error .valueError ∧
    parse_note_json none = .ok none ∧
    (convert_keep_notes envAllOk {} 0 [("bad.json", none)]).map
        (fun o => o.stats.skipped_invalid) = .ok 1 ∧
    (convert_keep_notes envAllOk {} 0 [("bad.json", none)]).map
        (fun o => o.stats.errors) = .ok 0 :=
  ⟨rfl, rfl, rfl, by decide, by decide⟩

/-- Claim C4 (confirmed): for notes whose sanitized titles collide on one base name,
    a real run from an empty output directory allocates, in processing order, exactly
    `base.md`, `base (2).md`, `base (3).md`, ... — pairwise distinct, with the
    numeric disambiguators increasing; the assignment is the closed form
    `(List.range q.length).map (noteCand b)`, which depends only on the number and
    order of the notes, so re-running the batch from an empty directory reproduces
    it exactly. -/
theorem claim_C4_collisions (env : Env) (opts : Opts) (now : Int) (s : Stats)
    (q : List (Note × String)) (b : String)
    (hdry : opts.dry_run = false) (hw : ∀ f, env.writeOk f = true) (hpre : env.preOut = [])
    (hb : ∀ p ∈ q, noteBaseOf p.1.title p.1.created_usec = b) :
    (q.foldl (processNote env opts now) (initState s)).allocNotes
        = (List.range q.length).map (noteCand b) ∧
    ((q.foldl (processNote env opts now) (initState s)).allocNotes).Pairwise
        (fun a c => a ≠ c) := by
  have h := run_same_base env opts now b hdry hw hpre q (initState s) 0 hb (by simp [initState])
  have halloc : (q.foldl (processNote env opts now) (initState s)).allocNotes
      = (List.range q.length).map (noteCand b) := by
    rw [h.2]
    show ([] : List String) ++ _ = _
    rw [List.nil_append, List.range_eq_range']
  refine ⟨halloc, ?_⟩
  rw [halloc]
  exact (List.nodup_range q.length).map (noteCand_inj b)

/-- Witness for C4: three colliding titles from an empty directory. -/
theorem claim_C4_witness :
    (c4queue.foldl (processNote envAllOk {} 0) (initState {})).allocNotes
        = (List.range c4queue.length).map (noteCand "t") ∧
    ((c4queue.foldl (processNote envAllOk {} 0) (initState {})).allocNotes).Pairwise
        (fun a c => a ≠ c) :=
  claim_C4_collisions envAllOk {} 0 {} c4queue "t" rfl (fun _ => rfl) rfl (by decide)

/-- Claim C5 (confirmed): `get_unique_attachment_name` returns a name that is in
    neither the run's used-name set nor the target directory, and reserves it
    (returns `name :: used`) in the same step; consequently, in every conversion run
    the allocated attachment names are pairwise distinct. -/
theorem claim_C5_attachment_names :
    (∀ (original : String) (target used : List String),
      (get_unique_attachment_name original target used).1 ∉ used ∧
      (get_unique_attachment_name original target used).1 ∉ target ∧
      (get_unique_attachment_name original target used).2
          = (get_unique_attachment_name original target used).1 :: used) ∧
    (∀ (env : Env) (opts : Opts) (now : Int) (files : List (String × Option JValue))
        (out : RunOut),
      convert_keep_notes env opts now files = .ok out →
      out.allocAtts.Pairwise (fun a c => a ≠ c)) := by
  refine ⟨get_unique_attachment_name_spec, ?_⟩
  intro env opts now files out hconv
  unfold convert_keep_notes at hconv
  cases hcol : collectNotes opts files {} [] with
  | error e =>
    rw [hcol] at hconv
    exact absurd hconv (by simp)
  | ok sq =>
    rw [hcol] at hconv
    simp only [Except.ok.injEq] at hconv
    have ha : out.allocAtts = ((sortNotes sq.2).foldl (processNote env opts now)
        { stats := sq.1 }).allocAtts := by
      rw [← hconv]
    rw [ha]
    exact (queueFold_attInv env opts now (sortNotes sq.2) { stats := sq.1 }
      ⟨List.Pairwise.nil, by simp⟩).1

/-- Witness for C5: a run with one copied attachment. -/
theorem claim_C5_witness :
    (convert_keep_notes envAttOk {} 0 c8files = .ok c5out) ∧
    c5out.allocAtts.Pairwise (fun a c => a ≠ c) :=
  ⟨by decide, claim_C5_attachment_names.2 envAttOk {} 0 c8files c5out (by decide)⟩

/-- Claim C6 (confirmed): a recognized non-default color wraps the whole rendered
    body in the styled `<div>` container with that color's hex as background and
    black foreground, with the metadata footer inside the container after the body
    and before `</div>`; `DEFAULT` or an unrecognized color produces the unwrapped
    assembly.  `RED` maps to `#ff6d3f`. -/
theorem claim_C6_color_wrapper :
    (∀ (now : Int) (note : Note) (refs : List (String × String × String)) (hex : String),
      colorLookup (colorLabel note) = some hex → colorLabel note ≠ "DEFAULT" →
      note_to_markdown now note refs
        = divOpenLine hex ++ "\n\n" ++
          joinLines (bodyCore note refs ++ [footerLine now note]) ++ "\n</div>\n") ∧
    (∀ (now : Int) (note : Note) (refs : List (String × String × String)),
      colorLabel note = "DEFAULT" ∨ colorLookup (colorLabel note) = none →
      note_to_markdown now note refs
        = pyStrip (joinLines (bodyCore note refs ++ [footerLine now note])) ++ "\n") ∧
    colorLookup "RED" = some "#ff6d3f" ∧
    note_to_markdown 0 redNote []
      = "<div class=\"keep-note\" style=\"background-color: #ff6d3f; color: black; " ++
        "padding: 16px; border-radius: 8px; margin-bottom: 16px;\">\n\nhello\n" ++
        "<small style=\"color: #555;\">Created: 1970-01-01T00:00:00Z</small>\n</div>\n" ∧
    note_to_markdown 0 defaultColorNote []
      = "hello\n<small style=\"color: #555;\">Created: 1970-01-01T00:00:00Z</small>\n" ∧
    note_to_markdown 0 unknownColorNote []
      = "hello\n<small style=\"color: #555;\">Created: 1970-01-01T00:00:00Z</small>\n" := by
  refine ⟨?_, ?_, by decide, by decide, by decide, by decide⟩
  · intro now note refs hex hhex hne
    exact note_to_markdown_colored now note refs hex (hasColored_of_lookup hhex hne) hhex
  · intro now note refs h
    apply note_to_markdown_plain
    unfold hasColoredBackground
    rcases h with h | h
    · rw [h]
      simp
    · rw [h]
      simp

/-- Witness for C6: the wrapper equation at the concrete RED note. -/
theorem claim_C6_witness :
    colorLookup (colorLabel redNote) = some "#ff6d3f" ∧ colorLabel redNote ≠ "DEFAULT" ∧
    note_to_markdown 5 redNote []
      = divOpenLine "#ff6d3f" ++ "\n\n" ++
        joinLines (bodyCore redNote [] ++ [footerLine 5 redNote]) ++ "\n</div>\n" :=
  ⟨by decide, by decide,
    claim_C6_color_wrapper.1 5 redNote [] "#ff6d3f" (by decide) (by decide)⟩

/-- Claim C8, counterexample: an attachment whose source file is missing is NOT
    counted in `errors` (the code only logs and skips it): on a one-note input with
    one missing attachment the run ends with `errors = 0` (the claim requires it to
    be counted), while the note still exports with the attachment omitted. -/
theorem claim_C8_counterexample :
    (convert_keep_notes envAllOk {} 0 c8files).map
        (fun o => (o.stats.errors, o.stats.exported)) = .ok (0, 1) ∧
    (convert_keep_notes envAllOk {} 0 c8files).map (fun o => o.writesOut)
        = .ok [("t.md",
            "<small style=\"color: #555;\">Created: 1970-01-01T00:00:00Z</small>\n")] :=
  ⟨by decide, by decide⟩

/-- Claim C8 (amended): a missing attachment source file is skipped without touching
    `errors` (and contributes no reference); a failed copy increments `errors` by one
    and contributes no reference; in either case the owning note still exports (its
    `exported` counter increments whenever its own write succeeds). -/
theorem claim_C8_amended :
    (∀ (env : Env) (opts : Opts) (filepath : String) (kv : List (String × JValue))
        (refs : List (String × String × String)) (st : ExpState) (rel : String),
      jGet kv "filePath" = some (.str rel) → rel ≠ "" →
      env.isfile filepath rel = false →
      processAtt env opts filepath (.obj kv) (refs, st) = (refs, st)) ∧
    (∀ (env : Env) (opts : Opts) (filepath : String) (kv : List (String × JValue))
        (refs : List (String × String × String)) (st : ExpState) (rel : String),
      opts.dry_run = false →
      jGet kv "filePath" = some (.str rel) → rel ≠ "" →
      env.isfile filepath rel = true → env.copyOk filepath rel = false →
      (processAtt env opts filepath (.obj kv) (refs, st)).1 = refs ∧
      (processAtt env opts filepath (.obj kv) (refs, st)).2.stats.errors
          = st.stats.errors + 1 ∧
      (processAtt env opts filepath (.obj kv) (refs, st)).2.writesRes = st.writesRes) ∧
    (∀ (env : Env) (opts : Opts) (now : Int) (st : ExpState) (pair : Note × String),
      opts.dry_run = false → env.writeOk pair.2 = true →
      (processNote env opts now st pair).stats.exported = st.stats.exported + 1) := by
  refine ⟨?_, ?_, ?_⟩
  · intro env opts filepath kv refs st rel hfp hrel hmiss
    simp [processAtt, hfp, hrel, hmiss]
  · intro env opts filepath kv refs st rel hdry hfp hrel hisf hcopy
    refine ⟨?_, ?_, ?_⟩ <;> simp [processAtt, hfp, hrel, hisf, hdry, hcopy]
  · intro env opts now st pair hdry hwrite
    have hpres := attFold_preserves env opts pair.2 pair.1.attachments ([], st)
    unfold processNote
    rw [hdry]
    simp only [Bool.false_eq_true, if_false]
    rw [hwrite]
    simp only [if_true]
    rw [hpres.2.2]

/-- Witness for C8: the three amended behaviours at concrete inputs. -/
theorem claim_C8_witness :
    processAtt envAllOk {} "n.json" (.obj [("filePath", .str "img.png")])
        ([], initState {}) = ([], initState {}) ∧
    (processAtt envCopyFail {} "n.json" (.obj [("filePath", .str "img.png")])
        ([], initState {})).2.stats.errors = (initState {}).stats.errors + 1 ∧
    (processNote envAllOk {} 0 (initState {}) ({ title := "t" }, "n.json")).stats.exported
        = (initState {}).stats.exported + 1 :=
  ⟨claim_C8_amended.1 envAllOk {} "n.json" [("filePath", .str "img.png")] []
      (initState {}) "img.png" rfl (by decide) rfl,
   (claim_C8_amended.2.1 envCopyFail {} "n.json" [("filePath", .str "img.png")] []
      (initState {}) "img.png" rfl rfl (by decide) rfl rfl).2.1,
   claim_C8_amended.2.2 envAllOk {} 0 (initState {}) ({ title := "t" }, "n.json") rfl rfl⟩

/-- Claim C2, counterexample: a dry run does NOT allocate the same note filenames as
    a real run on the same input — with two queued notes whose sanitized titles
    collide, the real run allocates `t.md`, `t (2).md` (the collision check sees the
    file written earlier in the run), while the dry run, which writes nothing,
    allocates `t.md` twice. -/
theorem claim_C2_counterexample :
    (convert_keep_notes envAllOk { dry_run := true } 0 c2files).map (fun o => o.allocNotes)
        = .ok ["t.md", "t.md"] ∧
    (convert_keep_notes envAllOk { dry_run := false } 0 c2files).map (fun o => o.allocNotes)
        = .ok ["t.md", "t (2).md"] ∧
    (.ok ["t.md", "t.md"] : Except PyErr (List String)) ≠ .ok ["t.md", "t (2).md"] :=
  ⟨by decide, by decide, by decide⟩

/-- Claim C2 (amended): with the same input and an environment in which every copy
    and write succeeds, a dry run performs zero filesystem writes and zero attachment
    copies, returns Stats counters identical to the real run, and allocates identical
    attachment names; the note filenames also coincide PROVIDED the dry-run
    allocations are pairwise distinct (the dry run does not register names written
    earlier in the run, so intra-run title collisions make it repeat names). -/
theorem claim_C2_amended (env : Env) (it ia : Bool) (now : Int)
    (files : List (String × Option JValue)) (od og : RunOut)
    (hc : ∀ p r, env.copyOk p r = true) (hw : ∀ f, env.writeOk f = true)
    (hdry : convert_keep_notes env ⟨true, it, ia⟩ now files = .ok od)
    (hreal : convert_keep_notes env ⟨false, it, ia⟩ now files = .ok og) :
    od.writesOut = [] ∧ od.writesRes = [] ∧
    og.stats = od.stats ∧ og.allocAtts = od.allocAtts ∧
    (od.allocNotes.Pairwise (fun a c => a ≠ c) → og.allocNotes = od.allocNotes) := by
  unfold convert_keep_notes at hdry hreal
  rw [← collectNotes_dry_irrel true false it ia files {} []] at hreal
  cases hcol : collectNotes ⟨true, it, ia⟩ files {} [] with
  | error e =>
    rw [hcol] at hdry
    exact absurd hdry (by simp)
  | ok sq =>
    rw [hcol] at hdry hreal
    dsimp only at hdry hreal
    rw [Except.ok.injEq] at hdry hreal
    subst hdry
    subst hreal
    have hdwrites := queueFold_dry_writes env ⟨true, it, ia⟩ rfl now (sortNotes sq.2)
      { stats := sq.1 }
    have hinv0 : DryRealInv ({ stats := sq.1 } : ExpState) ({ stats := sq.1 } : ExpState) :=
      ⟨rfl, rfl, rfl, rfl, rfl, by simp⟩
    have hinv := queueFold_dryreal env ⟨true, it, ia⟩ ⟨false, it, ia⟩ rfl rfl hc hw now
      (sortNotes sq.2) { stats := sq.1 } { stats := sq.1 } hinv0
    obtain ⟨hstats, hused, halloc, hwo, hwr, hsub⟩ := hinv
    refine ⟨hdwrites.1, hdwrites.2, hstats.symm, halloc.symm, ?_⟩
    intro hpw
    have hdalloc : ((sortNotes sq.2).foldl (processNote env ⟨true, it, ia⟩ now)
        { stats := sq.1 }).allocNotes = (sortNotes sq.2).map (dryNoteName env) := by
      rw [dry_allocNotes env ⟨true, it, ia⟩ now rfl (sortNotes sq.2) { stats := sq.1 } rfl]
      rfl
    rw [hdalloc] at hpw
    have hralloc := real_allocNotes env ⟨false, it, ia⟩ now rfl hw (sortNotes sq.2)
      { stats := sq.1 } [] rfl (by intro p hp; simp) hpw
    show ((sortNotes sq.2).foldl (processNote env ⟨false, it, ia⟩ now)
        { stats := sq.1 }).allocNotes = _
    rw [hralloc.1, hdalloc]
    rfl

/-- Witness for C2 (amended): a one-note input, dry versus real. -/
theorem claim_C2_witness :
    c2dryOut.writesOut = [] ∧ c2dryOut.writesRes = [] ∧
    c2realOut.stats = c2dryOut.stats ∧ c2realOut.allocAtts = c2dryOut.allocAtts ∧
    c2realOut.allocNotes = c2dryOut.allocNotes := by
  have h := claim_C2_amended envAllOk false false 0 c2wfiles c2dryOut c2realOut
    (fun _ _ => rfl) (fun _ => rfl) (by decide) (by decide)
  exact ⟨h.1, h.2.1, h.2.2.1, h.2.2.2.1, h.2.2.2.2 (by decide)⟩

end KeepToJoplin
